import Mathlib

set_option maxRecDepth 16384

namespace MetaAdsAnalyzer

/- Shallow embedding of the meta_ads_analyzer core: selector.py (ad
classification, deduplication, selection, advertiser aggregation),
scraper/meta_library.py (pagination crawl loop) and market_pipeline.py
(competition classification).

Python datetimes are modelled as integer timestamps in seconds (Int);
timedelta(days = 1) is 86400 seconds, and the Python expression
(now - launch).days is floor division of the difference by 86400
(Int.fdiv, matching timedelta.days which floors toward minus infinity).
The standard-library parser datetime.fromisoformat, together with the
surrounding Z-suffix and tzinfo normalisation that is textually identical
at its three call sites in selector.py, is abstracted as an arbitrary
function parseDate : String -> Option Int passed as a parameter; the
theorems quantify over it. -/

/-- Priority enum from models.py. -/
inductive Priority where
  | P1_ACTIVE_WINNER
  | P2_PROVEN_RECENT
  | P3_STRATEGIC_DIRECTION
  | P4_RECENT_MODERATE
deriving DecidableEq, Repr

/-- Priority string values from models.py (used as the sort key in select_ads). -/
def Priority.value : Priority → String
  | .P1_ACTIVE_WINNER => "p1_active_winner"
  | .P2_PROVEN_RECENT => "p2_proven_recent"
  | .P3_STRATEGIC_DIRECTION => "p3_strategic_direction"
  | .P4_RECENT_MODERATE => "p4_recent_moderate"

/-- Numeric rank of a tier: P1 is best (1) and P4 is worst (4); an ad that
received no tier at all ranks 5. Used to state tier monotonicity. -/
def Priority.rank : Priority → Nat
  | .P1_ACTIVE_WINNER => 1
  | .P2_PROVEN_RECENT => 2
  | .P3_STRATEGIC_DIRECTION => 3
  | .P4_RECENT_MODERATE => 4

/-- Rank of an optional tier; none (skipped) is strictly worse than every tier. -/
def tierRank : Option Priority → Nat
  | some p => p.rank
  | none => 5

/-- SkipReason enum from models.py. -/
inductive SkipReason where
  | NO_LAUNCH_DATE
  | LEGACY_AUTOPILOT
  | FAILED_TEST
  | THIN_TEXT
  | BELOW_THRESHOLD
  | DUPLICATE
deriving DecidableEq, Repr

/-- ScrapedAd from models.py, restricted to the fields read by the selection,
aggregation and crawl-loop code under verification. -/
structure ScrapedAd where
  ad_id : String
  page_name : String
  page_id : Option String := none
  primary_text : Option String := none
  headline : Option String := none
  started_running : Option String := none
  scrape_position : Nat := 0
  impression_lower : Int := 0
  impression_upper : Option Int := none
deriving DecidableEq, Repr

/-- Word counter over a character list: counts maximal runs of
non-whitespace characters, i.e. the length of python str.split(). -/
def countWords : List Char → Bool → Nat
  | [], _ => 0
  | c :: cs, inWord =>
    if c.isWhitespace then countWords cs false
    else (if inWord then 0 else 1) + countWords cs true

/-- ScrapedAd.max_primary_text_words property from models.py:
0 when primary_text is falsy, otherwise len(primary_text.strip().split()). -/
def max_primary_text_words (ad : ScrapedAd) : Nat :=
  match ad.primary_text with
  | none => 0
  | some s => countWords s.data false

/-- Config section read through selection_cfg.get with these defaults in
classify_ad; a value object with all keys present models an arbitrary
config dict. -/
structure SelectionConfig where
  min_primary_text_words : Int := 50
  skip_older_than_days : Int := 180
  failed_test_max_impressions : Int := 1000
  failed_test_min_days : Int := 30
  active_winner_max_days : Int := 14
  active_winner_min_impressions : Int := 50000
  proven_recent_max_days : Int := 30
  proven_recent_min_impressions : Int := 10000
  strategic_direction_max_days : Int := 7
  recent_moderate_max_days : Int := 60
  recent_moderate_min_impressions : Int := 50000
deriving DecidableEq, Repr

/-- Every .get default in classify_ad. -/
def defaultSelectionConfig : SelectionConfig := {}

/-- Launch-date parsing as performed in selector.py: the started_running
string is parsed only when truthy (neither None nor empty); parse failure
yields none. -/
def parsedLaunch (parseDate : String → Option Int) : Option String → Option Int
  | none => none
  | some s => if s = "" then none else parseDate s

/-- Result tuple of classify_ad: (priority, label, skip_reason, days_since_launch). -/
structure ClassifyResult where
  priority : Option Priority
  label : String
  skip_reason : Option SkipReason
  days_since_launch : Option Int
deriving DecidableEq, Repr

/-- Impression-only classification: the final else branch of classify_ad
(lines 127-145 of selector.py), reached when no launch date parses (and
also when a date parses but impression_lower is negative); it always
returns a priority and reports days_since_launch as None. -/
def impressionOnlyClassify (cfg : SelectionConfig) (impressions : Int) : ClassifyResult :=
  if cfg.active_winner_min_impressions ≤ impressions then
    ⟨some .P1_ACTIVE_WINNER, "ACTIVE_WINNER", none, none⟩
  else if cfg.proven_recent_min_impressions ≤ impressions then
    ⟨some .P2_PROVEN_RECENT, "PROVEN_RECENT", none, none⟩
  else if 0 < impressions then
    ⟨some .P4_RECENT_MODERATE, "RECENT_MODERATE", none, none⟩
  else
    ⟨some .P4_RECENT_MODERATE, "RECENT_MODERATE", none, none⟩

/-- Branching core of classify_ad over the locals the Python body computes
first: the word count, impression_lower and the parsed days_since_launch. -/
def classifyCore (cfg : SelectionConfig) (textWords : Int) (impressions : Int)
    (dsl : Option Int) : ClassifyResult :=
  if textWords < cfg.min_primary_text_words then
    ⟨none, "SKIP", some .THIN_TEXT, dsl⟩
  else
    match dsl with
    | some days =>
      if cfg.skip_older_than_days ≤ days then
        ⟨none, "SKIP", some .LEGACY_AUTOPILOT, some days⟩
      else if 0 < impressions ∧ impressions < cfg.failed_test_max_impressions
          ∧ cfg.failed_test_min_days < days then
        ⟨none, "SKIP", some .FAILED_TEST, some days⟩
      else if 0 < impressions then
        if days ≤ cfg.active_winner_max_days
            ∧ cfg.active_winner_min_impressions ≤ impressions then
          ⟨some .P1_ACTIVE_WINNER, "ACTIVE_WINNER", none, some days⟩
        else if days ≤ cfg.proven_recent_max_days
            ∧ cfg.proven_recent_min_impressions ≤ impressions then
          ⟨some .P2_PROVEN_RECENT, "PROVEN_RECENT", none, some days⟩
        else if days ≤ cfg.strategic_direction_max_days then
          ⟨some .P3_STRATEGIC_DIRECTION, "STRATEGIC_DIRECTION", none, some days⟩
        else if days ≤ cfg.recent_moderate_max_days
            ∧ cfg.recent_moderate_min_impressions ≤ impressions then
          ⟨some .P4_RECENT_MODERATE, "RECENT_MODERATE", none, some days⟩
        else
          ⟨none, "SKIP", some .BELOW_THRESHOLD, some days⟩
      else if impressions = 0 then
        if days ≤ cfg.active_winner_max_days then
          ⟨some .P1_ACTIVE_WINNER, "ACTIVE_WINNER", none, some days⟩
        else if days ≤ cfg.proven_recent_max_days then
          ⟨some .P2_PROVEN_RECENT, "PROVEN_RECENT", none, some days⟩
        else if days ≤ cfg.recent_moderate_max_days then
          ⟨some .P4_RECENT_MODERATE, "RECENT_MODERATE", none, some days⟩
        else
          ⟨none, "SKIP", some .BELOW_THRESHOLD, some days⟩
      else
        impressionOnlyClassify cfg impressions
    | none =>
      impressionOnlyClassify cfg impressions

/-- classify_ad from selector.py lines 28-148: parse the launch date into
days_since_launch, then classify from the word count, impressions and date. -/
def classify_ad (parseDate : String → Option Int) (ad : ScrapedAd)
    (cfg : SelectionConfig) (now : Int) : ClassifyResult :=
  classifyCore cfg (max_primary_text_words ad) ad.impression_lower
    ((parsedLaunch parseDate ad.started_running).map
      (fun launch => Int.fdiv (now - launch) 86400))

/-- Text of exactly 100 words. -/
def wordText100 : String := String.intercalate " " (List.replicate 100 "w")

/-- Concrete ad for the C4 scenario: no launch date, zero impressions,
100 words of primary text. -/
def adC4 : ScrapedAd :=
  { ad_id := "c4", page_name := "PageC4", primary_text := some wordText100 }

/-- Launch-date parser used by the concrete classification examples. -/
def pdC3 : String → Option Int := fun s => if s = "2024-01-01" then some 0 else none

/-- Concrete ad launched 5 days before nowC3 with zero impressions. -/
def adC3low : ScrapedAd :=
  { ad_id := "c3-low", page_name := "PageC3", primary_text := some wordText100,
    started_running := some "2024-01-01" }

/-- The same ad except impression_lower is 100 instead of 0. -/
def adC3high : ScrapedAd := { adC3low with ad_id := "c3-high", impression_lower := 100 }

/-- Reference time 5 days after the launch date parsed by pdC3. -/
def nowC3 : Int := 5 * 86400

/-- Lookup in an insertion-ordered dict modelled as an association list. -/
def lookupKey {κ α : Type} [DecidableEq κ] (m : List (κ × α)) (k : κ) : Option α :=
  (m.find? (fun p => p.1 = k)).map (·.2)

/-- Dict update at an existing key keeps its position; at a fresh key it
appends, matching python dict insertion order. -/
def setKey {κ α : Type} [DecidableEq κ] : List (κ × α) → κ → α → List (κ × α)
  | [], k, v => [(k, v)]
  | (k0, v0) :: rest, k, v =>
    if k0 = k then (k, v) :: rest else (k0, v0) :: setKey rest k v

/-- Dedup key from deduplicate_ads: the f-string page_name :: primary text,
with a falsy primary_text replaced by the empty string. -/
def dedupKey (ad : ScrapedAd) : String :=
  ad.page_name ++ "::" ++ ad.primary_text.getD ""

/-- One iteration of the deduplicate_ads loop: first ad wins the key; a
later ad replaces it only when its impression_lower is strictly higher. -/
def dedupStep (m : List (String × ScrapedAd)) (ad : ScrapedAd) :
    List (String × ScrapedAd) :=
  match lookupKey m (dedupKey ad) with
  | none => m ++ [(dedupKey ad, ad)]
  | some cur =>
    if cur.impression_lower < ad.impression_lower then setKey m (dedupKey ad) ad else m

/-- deduplicate_ads from selector.py lines 151-183: returns the kept ads in
dict order and the number of duplicates removed. -/
def deduplicate_ads (ads : List ScrapedAd) : List ScrapedAd × Nat :=
  let kept := (ads.foldl dedupStep []).map (·.2)
  (kept, ads.length - kept.length)

/-- ClassifiedAd from models.py. -/
structure ClassifiedAd where
  ad : ScrapedAd
  priority : Option Priority := none
  priority_label : String := "SKIP"
  skip_reason : Option SkipReason := none
  days_since_launch : Option Int := none
deriving DecidableEq, Repr

/-- Generic python-dict upsert pattern: a missing key is initialised and
appended, a present key has its value updated in place. -/
def dictUpsert {κ α β : Type} [DecidableEq κ] (key : β → κ) (init : β → α)
    (upd : α → β → α) (m : List (κ × α)) (x : β) : List (κ × α) :=
  match lookupKey m (key x) with
  | none => m ++ [(key x, init x)]
  | some v => setKey m (key x) (upd v x)

/-- The deduped_by_priority dict of select_ads lines 228-234: selected ads
grouped by priority, keys in first-seen order, each group in input order. -/
def groupByPriority (cas : List ClassifiedAd) :
    List (Option Priority × List ClassifiedAd) :=
  cas.foldl (dictUpsert (fun ca => ca.priority) (fun ca => [ca]) (fun g ca => g ++ [ca])) []

/-- Per-group body of the dedup loop in select_ads lines 239-255: a group of
at most 3 ads is deduplicated through deduplicate_ads and filtered back by
ad_id; a larger group is kept in full as a likely campaign flight. -/
def dedupGroup (cas : List ClassifiedAd) : List ClassifiedAd :=
  if cas.length ≤ 3 then
    let dedupedIds := (deduplicate_ads (cas.map (·.ad))).1.map (·.ad_id)
    cas.filter (fun ca => ca.ad.ad_id ∈ dedupedIds)
  else cas

/-- The whole dedup stage of select_ads lines 227-257. -/
def dedupSelected (selected : List ClassifiedAd) : List ClassifiedAd :=
  ((groupByPriority selected).map (fun g => dedupGroup g.2)).flatten

/-- Code-point comparison of strings as python compares them. -/
def pyStrLtChars : List Char → List Char → Bool
  | [], [] => false
  | [], _ :: _ => true
  | _ :: _, [] => false
  | c :: cs, d :: ds =>
    if c.val < d.val then true else if d.val < c.val then false else pyStrLtChars cs ds

/-- Sort key of select_ads lines 260-265: the priority value string (or z
when absent) paired with the negated impressions. -/
def sortKey (ca : ClassifiedAd) : String × Int :=
  (match ca.priority with
    | some p => p.value
    | none => "z",
   -ca.ad.impression_lower)

/-- Ascending lexicographic comparison of sort keys. -/
def sortKeyLE (a b : ClassifiedAd) : Bool :=
  pyStrLtChars (sortKey a).1.data (sortKey b).1.data ||
    ((sortKey a).1 = (sortKey b).1 && decide ((sortKey a).2 ≤ (sortKey b).2))

/-- Stable insertion: the inserted element goes after every element that
compares less-or-equal to it, matching python list.sort stability. -/
def stableInsert (le : ClassifiedAd → ClassifiedAd → Bool) (x : ClassifiedAd) :
    List ClassifiedAd → List ClassifiedAd
  | [] => [x]
  | y :: ys => if le y x then y :: stableInsert le x ys else x :: y :: ys

/-- Stable sort by the select_ads key (insertion sort, stable like
python list.sort). -/
def stableSortByKey (l : List ClassifiedAd) : List ClassifiedAd :=
  l.foldl (fun acc x => stableInsert sortKeyLE x acc) []

/-- Result of select_ads restricted to the selected and skipped lists;
SelectionStats only feeds logging and reporting and is not modelled. -/
structure SelectionResultM where
  selected : List ClassifiedAd
  skipped : List ClassifiedAd
deriving DecidableEq, Repr

/-- select_ads from selector.py lines 186-296: classify every ad, split
selected from skipped, deduplicate per priority group, sort by
(priority value, negated impressions), apply the positive limit. -/
def select_ads (parseDate : String → Option Int) (ads : List ScrapedAd)
    (cfg : SelectionConfig) (limit : Nat) (now : Int) : SelectionResultM :=
  let classified := ads.map (fun ad =>
    let r := classify_ad parseDate ad cfg now
    ClassifiedAd.mk ad r.priority r.label r.skip_reason r.days_since_launch)
  let selected := classified.filter (fun ca => ca.priority.isSome)
  let skipped := classified.filter (fun ca => ca.priority = none)
  let sorted := stableSortByKey (dedupSelected selected)
  ⟨if 0 < limit then sorted.take limit else sorted, skipped⟩

/-- Config with the thin-text rule disabled, used by concrete pipeline runs. -/
def cfgC2 : SelectionConfig := { min_primary_text_words := 0 }

/-- Four concrete ads: two literal duplicates of page X with text t, plus two
distinct ads of page Y, all classified P4. -/
def adsC2 : List ScrapedAd :=
  [ { ad_id := "d1", page_name := "X", primary_text := some "t", impression_lower := 1 },
    { ad_id := "d2", page_name := "X", primary_text := some "t", impression_lower := 2 },
    { ad_id := "e3", page_name := "Y", primary_text := some "u", impression_lower := 3 },
    { ad_id := "e4", page_name := "Y", primary_text := some "v", impression_lower := 4 } ]

/-- Concrete selected list for the amended C2 statement: two classified ads
with one shared priority, one page and one text, distinct ids. -/
def adW1 : ScrapedAd :=
  { ad_id := "w1", page_name := "X", primary_text := some "t", impression_lower := 1 }

def adW2 : ScrapedAd :=
  { ad_id := "w2", page_name := "X", primary_text := some "t", impression_lower := 2 }

def casC2W : List ClassifiedAd :=
  [ { ad := adW1, priority := some Priority.P4_RECENT_MODERATE,
      priority_label := "RECENT_MODERATE" },
    { ad := adW2, priority := some Priority.P4_RECENT_MODERATE,
      priority_label := "RECENT_MODERATE" } ]

/-- Replacement rule of deduplicate_ads: a later ad with the same key wins
only when its impression_lower is strictly higher. -/
def pickHigher (w a : ScrapedAd) : ScrapedAd :=
  if w.impression_lower < a.impression_lower then a else w

/-- Maximum impression_lower over a group of ads (0 for an empty group). -/
def maxImpression : List ScrapedAd → Int
  | [] => 0
  | a :: rest => rest.foldl (fun m b => max m b.impression_lower) a.impression_lower

/-- Value-level effect of one dictUpsert on the entry of one key. -/
def upsertFold {α β : Type} (init : β → α) (upd : α → β → α)
    (cur : Option α) (x : β) : Option α :=
  some (match cur with
    | none => init x
    | some v => upd v x)

/-- BLUE_OCEAN_THRESHOLD from market_pipeline.py line 36. -/
def BLUE_OCEAN_THRESHOLD : Int := 50

/-- MarketPipeline._check_competition_level from market_pipeline.py lines
451-468: the qualifying brands in dict order, then the tier decided by how
many there are. -/
def check_competition_level (brand_ad_counts : List (String × Int)) :
    String × List String :=
  let qualifying := (brand_ad_counts.filter
    (fun p => BLUE_OCEAN_THRESHOLD ≤ p.2)).map (fun p => p.1)
  if qualifying.length = 0 then ("blue_ocean", [])
  else if qualifying.length ≤ 2 then ("thin", qualifying)
  else ("normal", qualifying)

/-- AdvertiserEntry from models.py, restricted to the fields the aggregation
writes (brand_name and relevance_score stay at their defaults there). -/
structure AdvertiserEntry where
  page_id : Option String := none
  page_name : String
  ad_count : Nat := 0
  active_ad_count : Nat := 0
  recent_ad_count : Nat := 0
  total_impression_lower : Int := 0
  max_impression_upper : Int := 0
  earliest_launch : Option Int := none
  latest_launch : Option Int := none
  headlines : List String := []
deriving DecidableEq, Repr

/-- Python truthiness of an optional string: neither None nor empty. -/
def truthyStr : Option String → Bool
  | none => false
  | some s => !(s = "")

/-- Statement entry.ad_count += 1 of the aggregation loop. -/
def bumpAdCount (e : AdvertiserEntry) : AdvertiserEntry :=
  { e with ad_count := e.ad_count + 1 }

/-- Statements of selector.py lines 348-350: active count on a truthy
started_running. -/
def bumpActive (started : Option String) (e : AdvertiserEntry) : AdvertiserEntry :=
  if truthyStr started then { e with active_ad_count := e.active_ad_count + 1 } else e

/-- Statement of selector.py lines 366-367: earliest launch extreme. -/
def setEarliest (launch : Int) (e : AdvertiserEntry) : AdvertiserEntry :=
  match e.earliest_launch with
  | none => { e with earliest_launch := some launch }
  | some x => if launch < x then { e with earliest_launch := some launch } else e

/-- Statement of selector.py lines 368-369: latest launch extreme. -/
def setLatest (launch : Int) (e : AdvertiserEntry) : AdvertiserEntry :=
  match e.latest_launch with
  | none => { e with latest_launch := some launch }
  | some x => if x < launch then { e with latest_launch := some launch } else e

/-- Statements of selector.py lines 352-371: when the launch date parses,
the recent count and then the earliest and latest extremes. -/
def applyLaunch (thirty_days_ago : Int) (launchOpt : Option Int)
    (e : AdvertiserEntry) : AdvertiserEntry :=
  match launchOpt with
  | none => e
  | some launch =>
    setLatest launch (setEarliest launch
      (if thirty_days_ago ≤ launch then
        { e with recent_ad_count := e.recent_ad_count + 1 }
      else e))

/-- Statements of selector.py lines 373-376: impression totals. -/
def addImpressions (lower : Int) (upper : Option Int)
    (e : AdvertiserEntry) : AdvertiserEntry :=
  let e6 := { e with total_impression_lower := e.total_impression_lower + lower }
  match upper with
  | none => e6
  | some u => if u ≠ 0 then
      { e6 with max_impression_upper := max e6.max_impression_upper u }
    else e6

/-- Statements of selector.py lines 378-380: distinct truthy headlines. -/
def addHeadline (headlineOpt : Option String) (e : AdvertiserEntry) : AdvertiserEntry :=
  match headlineOpt with
  | none => e
  | some h => if h ≠ "" ∧ h ∉ e.headlines then
      { e with headlines := e.headlines ++ [h] }
    else e

/-- The per-ad mutation of one advertiser entry, selector.py lines 345-380,
as the sequence of its statements. -/
def updateEntry (parseDate : String → Option Int) (thirty_days_ago : Int)
    (e0 : AdvertiserEntry) (ad : ScrapedAd) : AdvertiserEntry :=
  addHeadline ad.headline
    (addImpressions ad.impression_lower ad.impression_upper
      (applyLaunch thirty_days_ago (parsedLaunch parseDate ad.started_running)
        (bumpActive ad.started_running
          (bumpAdCount e0))))

/-- Fresh AdvertiserEntry built when a page_name is first seen,
selector.py lines 339-343. -/
def freshEntry (ad : ScrapedAd) : AdvertiserEntry :=
  { page_id := ad.page_id, page_name := ad.page_name, headlines := [] }

/-- One iteration of the aggregation loop: insert a fresh entry when absent,
then mutate the entry for the page in place. -/
def aggStep (parseDate : String → Option Int) (thirty_days_ago : Int) :
    List (String × AdvertiserEntry) → ScrapedAd → List (String × AdvertiserEntry) :=
  dictUpsert (fun ad => ad.page_name)
    (fun ad => updateEntry parseDate thirty_days_ago (freshEntry ad) ad)
    (fun e ad => updateEntry parseDate thirty_days_ago e ad)

/-- One iteration of the most_recent loop of aggregate_by_advertiser,
selector.py lines 315-328: keep the strictly larger parsed launch. -/
def mostRecentStep (parseDate : String → Option Int) (most : Option Int)
    (ad : ScrapedAd) : Option Int :=
  match parsedLaunch parseDate ad.started_running with
  | none => most
  | some launch =>
    match most with
    | none => some launch
    | some m => if m < launch then some launch else some m

/-- The most_recent loop of aggregate_by_advertiser: strict maximum of the
parsed launch dates. -/
def mostRecentLaunch (parseDate : String → Option Int)
    (ads : List ScrapedAd) : Option Int :=
  ads.foldl (mostRecentStep parseDate) none

/-- Reference time inference of aggregate_by_advertiser line 331: one day
after the most recent parsed launch, else the wall clock. -/
def inferNow (parseDate : String → Option Int) (wallClock : Int)
    (ads : List ScrapedAd) : Int :=
  match mostRecentLaunch parseDate ads with
  | some m => m + 86400
  | none => wallClock

/-- aggregate_by_advertiser from selector.py lines 299-382. The wall clock
read by datetime.now is an explicit parameter, consulted only when no
explicit now is supplied and no launch date parses. -/
def aggregate_by_advertiser (parseDate : String → Option Int) (wallClock : Int)
    (ads : List ScrapedAd) (nowOpt : Option Int) : List AdvertiserEntry :=
  let now :=
    match nowOpt with
    | some n => n
    | none => inferNow parseDate wallClock ads
  let thirty_days_ago := now - 30 * 86400
  (ads.foldl (aggStep parseDate thirty_days_ago) []).map (fun p => p.2)

/-- Environment of the crawl loop in MetaAdsScraper._scrape_ads: the k-th
call to _extract_ad_cards returns extract k, and the load-more attempt of
the round with scroll_attempts = n succeeds when loadMore n. Both are
browser interactions abstracted as oracles. -/
structure CrawlEnv where
  extract : Nat → List ScrapedAd
  loadMore : Nat → Bool

/-- Observable final state of the crawl loop: the accumulated ads and the
final scroll_attempts and stale_rounds counters. -/
structure CrawlResult where
  ads : List ScrapedAd
  scrollAttempts : Nat
  staleRounds : Nat
deriving DecidableEq, Repr

/-- Inner for-loop of _scrape_ads lines 164-171: append each unseen ad with
scrape_position = len(ads), stopping once max_ads is reached. -/
def addCards (maxAds : Nat) : List ScrapedAd → List String → List ScrapedAd →
    List ScrapedAd × List String
  | ads, seen, [] => (ads, seen)
  | ads, seen, ad :: rest =>
    if ad.ad_id ∈ seen then addCards maxAds ads seen rest
    else
      let ads2 := ads ++ [{ ad with scrape_position := ads.length }]
      let seen2 := ad.ad_id :: seen
      if maxAds ≤ ads2.length then (ads2, seen2) else addCards maxAds ads2 seen2 rest

/-- The while loop of _scrape_ads lines 160-209, with the remaining scroll
attempts as fuel: merge one extract, stop on the target count, scroll, count
unseen ads in a second extract, and update the stale-round counter — a
successful load-more trigger or fresh content resets it, a failed trigger
increments it, and the loop ends when it reaches 5. -/
def scrapeGo (env : CrawlEnv) (maxAds : Nat) :
    Nat → Nat → Nat → Nat → List ScrapedAd → List String → CrawlResult
  | 0, _, attempts, stale, ads, _ => ⟨ads, attempts, stale⟩
  | fuel + 1, callIdx, attempts, stale, ads, seen =>
    if maxAds ≤ ads.length then ⟨ads, attempts, stale⟩
    else
      let merged := addCards maxAds ads seen (env.extract callIdx)
      if maxAds ≤ merged.1.length then ⟨merged.1, attempts, stale⟩
      else if ((env.extract (callIdx + 1)).filter
          (fun a => a.ad_id ∉ merged.2)).length = 0 then
        if env.loadMore (attempts + 1) then
          scrapeGo env maxAds fuel (callIdx + 2) (attempts + 1) 0 merged.1 merged.2
        else if 5 ≤ stale + 1 then ⟨merged.1, attempts + 1, stale + 1⟩
        else scrapeGo env maxAds fuel (callIdx + 2) (attempts + 1) (stale + 1)
          merged.1 merged.2
      else scrapeGo env maxAds fuel (callIdx + 2) (attempts + 1) 0 merged.1 merged.2

/-- MetaAdsScraper._scrape_ads lines 155-211: run the loop from the empty
accumulator and return ads truncated to max_ads. -/
def scrapeAds (env : CrawlEnv) (maxAds maxScroll : Nat) : CrawlResult :=
  let r := scrapeGo env maxAds maxScroll 0 0 0 [] []
  ⟨r.ads.take maxAds, r.scrollAttempts, r.staleRounds⟩

/-- Reference first-seen deduplication over a stream of extracted cards,
assigning scrape_position in arrival order; the pair carries the seen ids. -/
def dedupFSP : List ScrapedAd → List String → List ScrapedAd →
    List ScrapedAd × List String
  | acc, seen, [] => (acc, seen)
  | acc, seen, ad :: rest =>
    if ad.ad_id ∈ seen then dedupFSP acc seen rest
    else dedupFSP (acc ++ [{ ad with scrape_position := acc.length }])
      (ad.ad_id :: seen) rest

/-- First-seen deduplication of a full stream. -/
def dedupByFirstSeen (s : List ScrapedAd) : List ScrapedAd := (dedupFSP [] [] s).1

/-- Concatenation of the batches the loop merges in its first r rounds: the
merge extract of round i is call 2i (the post-scroll extract 2i + 1 is only
counted, never merged). -/
def mergedUpTo (env : CrawlEnv) (r : Nat) : List ScrapedAd :=
  ((List.range r).map (fun i => env.extract (2 * i))).flatten

/-- Single concrete ad for the crawl-loop runs. -/
def adX : ScrapedAd := { ad_id := "x1", page_name := "PX" }

/-- Crawl environment whose first extract yields one ad and nothing after,
with every load-more attempt failing: every round is stale. -/
def envC6 : CrawlEnv :=
  { extract := fun k => if k = 0 then [adX] else [], loadMore := fun _ => false }

/-- Expected aggregation entry for the single-ad C10 witness run. -/
def entC10 : AdvertiserEntry :=
  { page_id := none, page_name := "PageC3", ad_count := 1, active_ad_count := 1,
    recent_ad_count := 1, total_impression_lower := 0, max_impression_upper := 0,
    earliest_launch := some 0, latest_launch := some 0, headlines := [] }

/- ===== Helper lemmas about association-list dicts ===== -/

theorem lookupKey_cons {κ α : Type} [DecidableEq κ] (k0 : κ) (v0 : α) (m : List (κ × α))
    (k : κ) : lookupKey ((k0, v0) :: m) k = if k0 = k then some v0 else lookupKey m k := by
  by_cases h : k0 = k <;> simp [lookupKey, List.find?, h]

theorem lookupKey_append_single {κ α : Type} [DecidableEq κ] (m : List (κ × α))
    (k0 : κ) (v : α) (k : κ) :
    lookupKey (m ++ [(k0, v)]) k =
      match lookupKey m k with
      | some w => some w
      | none => if k0 = k then some v else none := by
  induction m with
  | nil => simp [lookupKey_cons, lookupKey]
  | cons p m ih =>
    rw [List.cons_append, lookupKey_cons p.1 p.2, lookupKey_cons p.1 p.2]
    by_cases h : p.1 = k <;> simp [h, ih]

theorem lookupKey_setKey_self {κ α : Type} [DecidableEq κ] (m : List (κ × α))
    (k : κ) (v : α) : lookupKey (setKey m k v) k = some v := by
  induction m with
  | nil => simp [setKey, lookupKey_cons]
  | cons p m ih =>
    obtain ⟨k0, v0⟩ := p
    by_cases h : k0 = k <;> simp [setKey, h, lookupKey_cons, ih]

theorem lookupKey_setKey_ne {κ α : Type} [DecidableEq κ] (m : List (κ × α))
    (k k' : κ) (v : α) (h : k' ≠ k) :
    lookupKey (setKey m k v) k' = lookupKey m k' := by
  induction m with
  | nil => simp [setKey, lookupKey_cons, lookupKey, Ne.symm h]
  | cons p m ih =>
    obtain ⟨k0, v0⟩ := p
    by_cases hp : k0 = k
    · subst hp
      simp [setKey, lookupKey_cons, Ne.symm h]
    · simp [setKey, hp, lookupKey_cons, ih]

theorem setKey_self_eq {κ α : Type} [DecidableEq κ] (m : List (κ × α)) (k : κ) (v : α)
    (h : lookupKey m k = some v) : setKey m k v = m := by
  induction m with
  | nil => simp [lookupKey] at h
  | cons p m ih =>
    obtain ⟨k0, v0⟩ := p
    rw [lookupKey_cons] at h
    by_cases hp : k0 = k
    · subst hp
      rw [if_pos rfl] at h
      obtain rfl := Option.some.inj h
      simp [setKey]
    · rw [if_neg hp] at h
      simp [setKey, hp, ih h]

theorem lookupKey_eq_none_iff {κ α : Type} [DecidableEq κ] (m : List (κ × α)) (k : κ) :
    lookupKey m k = none ↔ ∀ p ∈ m, p.1 ≠ k := by
  simp [lookupKey, List.find?_eq_none]

theorem mem_setKey {κ α : Type} [DecidableEq κ] (m : List (κ × α)) (k : κ) (v : α)
    (p : κ × α) (hp : p ∈ setKey m k v) : p = (k, v) ∨ p ∈ m := by
  induction m with
  | nil =>
    simp [setKey] at hp
    exact Or.inl hp
  | cons q m ih =>
    rw [show setKey (q :: m) k v
        = if q.1 = k then (k, v) :: m else q :: setKey m k v from rfl] at hp
    by_cases hq : q.1 = k
    · simp only [hq, if_true, List.mem_cons] at hp
      rcases hp with h | h
      · exact Or.inl h
      · exact Or.inr (List.mem_cons_of_mem _ h)
    · simp only [hq, if_false, List.mem_cons] at hp
      rcases hp with h | h
      · exact Or.inr (h ▸ List.mem_cons_self _ _)
      · rcases ih h with h2 | h2
        · exact Or.inl h2
        · exact Or.inr (List.mem_cons_of_mem _ h2)

theorem keys_setKey {κ α : Type} [DecidableEq κ] (m : List (κ × α)) (k : κ) (v w : α)
    (h : lookupKey m k = some w) :
    (setKey m k v).map Prod.fst = m.map Prod.fst := by
  induction m with
  | nil => simp [lookupKey] at h
  | cons p m ih =>
    obtain ⟨k0, v0⟩ := p
    rw [lookupKey_cons] at h
    by_cases hp : k0 = k
    · subst hp
      simp [setKey]
    · rw [if_neg hp] at h
      simp [setKey, hp, ih h]

theorem lookupKey_some_mem {κ α : Type} [DecidableEq κ] (m : List (κ × α)) (k : κ)
    (v : α) (h : lookupKey m k = some v) : (k, v) ∈ m := by
  unfold lookupKey at h
  obtain ⟨q, hq, hmap⟩ := Option.map_eq_some'.mp h
  obtain ⟨k0, v0⟩ := q
  have hpred := List.find?_some hq
  have hk : k0 = k := by simpa using hpred
  have hv : v0 = v := hmap
  subst hk
  subst hv
  exact List.mem_of_find?_eq_some hq

theorem foldl_dictUpsert_lookup {κ α β : Type} [DecidableEq κ] (key : β → κ)
    (init : β → α) (upd : α → β → α) (xs : List β) (m : List (κ × α)) (k : κ) :
    lookupKey (xs.foldl (dictUpsert key init upd) m) k =
      (xs.filter (fun x => key x = k)).foldl (upsertFold init upd) (lookupKey m k) := by
  induction xs generalizing m with
  | nil => rfl
  | cons x rest ih =>
    rw [List.foldl_cons, ih]
    by_cases hk : key x = k
    · have hfilter : (x :: rest).filter (fun x => decide (key x = k))
          = x :: rest.filter (fun x => decide (key x = k)) := by
        simp [List.filter_cons, hk]
      rw [hfilter, List.foldl_cons]
      unfold dictUpsert
      cases hl : lookupKey m (key x) with
      | none =>
        rw [lookupKey_append_single]
        rw [hk] at hl
        rw [hl]
        simp [hk, upsertFold]
      | some v =>
        rw [hk] at hl
        rw [hk, lookupKey_setKey_self, hl]
        simp [upsertFold]
    · have hfilter : (x :: rest).filter (fun x => decide (key x = k))
          = rest.filter (fun x => decide (key x = k)) := by
        simp [List.filter_cons, hk]
      rw [hfilter]
      unfold dictUpsert
      cases hl : lookupKey m (key x) with
      | none =>
        rw [lookupKey_append_single]
        cases hlk : lookupKey m k with
        | none => simp [hk]
        | some w => simp
      | some v => rw [lookupKey_setKey_ne _ _ _ _ (fun hh => hk hh.symm)]

theorem foldl_dictUpsert_keys_nodup {κ α β : Type} [DecidableEq κ] (key : β → κ)
    (init : β → α) (upd : α → β → α) (xs : List β) (m : List (κ × α))
    (hm : (m.map Prod.fst).Nodup) :
    ((xs.foldl (dictUpsert key init upd) m).map Prod.fst).Nodup := by
  induction xs generalizing m with
  | nil => exact hm
  | cons x rest ih =>
    rw [List.foldl_cons]
    apply ih
    unfold dictUpsert
    cases hl : lookupKey m (key x) with
    | none =>
      have hnotin : key x ∉ m.map Prod.fst := by
        intro hmem
        obtain ⟨p, hp, hpk⟩ := List.mem_map.mp hmem
        exact (lookupKey_eq_none_iff m (key x)).mp hl p hp hpk
      simp only [List.map_append, List.map_cons, List.map_nil]
      rw [List.nodup_append]
      refine ⟨hm, List.nodup_singleton _, ?_⟩
      intro a ha hmem
      rw [List.mem_singleton] at hmem
      subst hmem
      exact hnotin ha
    | some v => rw [keys_setKey m (key x) _ v hl]; exact hm

theorem foldl_dictUpsert_entry_prop {κ α β : Type} [DecidableEq κ] (key : β → κ)
    (init : β → α) (upd : α → β → α) (P : κ → α → Prop) (xs : List β)
    (m : List (κ × α))
    (hinit : ∀ x ∈ xs, P (key x) (init x))
    (hupd : ∀ x ∈ xs, ∀ v, P (key x) v → P (key x) (upd v x))
    (hm : ∀ p ∈ m, P p.1 p.2) :
    ∀ p ∈ xs.foldl (dictUpsert key init upd) m, P p.1 p.2 := by
  induction xs generalizing m with
  | nil => exact hm
  | cons x rest ih =>
    rw [List.foldl_cons]
    apply ih
    · exact fun y hy => hinit y (List.mem_cons_of_mem _ hy)
    · exact fun y hy => hupd y (List.mem_cons_of_mem _ hy)
    · intro p hp
      unfold dictUpsert at hp
      cases hl : lookupKey m (key x) with
      | none =>
        rw [hl] at hp
        rcases List.mem_append.mp hp with h | h
        · exact hm p h
        · have : p = (key x, init x) := by simpa using h
          rw [this]
          exact hinit x (List.mem_cons_self _ _)
      | some v =>
        rw [hl] at hp
        rcases mem_setKey _ _ _ _ hp with h | h
        · have hv : P (key x) v := hm (key x, v) (lookupKey_some_mem m (key x) v hl)
          rw [h]
          exact hupd x (List.mem_cons_self _ _) v hv
        · exact hm p h

theorem values_filter_of_inv {κ α : Type} [DecidableEq κ] (keyv : α → κ)
    (m : List (κ × α)) (k : κ)
    (hinv : ∀ p ∈ m, keyv p.2 = p.1)
    (hnodup : (m.map Prod.fst).Nodup) :
    (m.map Prod.snd).filter (fun v => keyv v = k) =
      ((lookupKey m k).map (fun w => [w])).getD [] := by
  induction m with
  | nil => rfl
  | cons p m ih =>
    obtain ⟨k0, v0⟩ := p
    have hp : keyv v0 = k0 := hinv (k0, v0) (List.mem_cons_self _ _)
    have hnc : k0 ∉ m.map Prod.fst ∧ (m.map Prod.fst).Nodup := by
      simpa [List.nodup_cons] using hnodup
    have htail := ih (fun q hq => hinv q (List.mem_cons_of_mem _ hq)) hnc.2
    rw [List.map_cons, lookupKey_cons]
    by_cases h : k0 = k
    · have hlm : lookupKey m k = none := by
        rw [lookupKey_eq_none_iff]
        intro q hq hqk
        apply hnc.1
        rw [h, ← hqk]
        exact List.mem_map_of_mem Prod.fst hq
      rw [hlm] at htail
      simp [List.filter_cons, hp, h, htail]
    · simp [List.filter_cons, hp, h, htail]

theorem upsertFold_group_some (l : List ClassifiedAd) (g : List ClassifiedAd) :
    l.foldl (upsertFold (fun ca => [ca]) (fun g ca => g ++ [ca])) (some g)
      = some (g ++ l) := by
  induction l generalizing g with
  | nil => simp
  | cons a rest ih =>
    rw [List.foldl_cons]
    show rest.foldl _ (some (g ++ [a])) = _
    rw [ih]
    simp

theorem groupByPriority_lookup (cas : List ClassifiedAd) (q : Option Priority) :
    lookupKey (groupByPriority cas) q =
      if cas.filter (fun ca => ca.priority = q) = [] then none
      else some (cas.filter (fun ca => ca.priority = q)) := by
  unfold groupByPriority
  rw [foldl_dictUpsert_lookup]
  cases hf : cas.filter (fun ca => decide (ca.priority = q)) with
  | nil => rfl
  | cons a rest =>
    rw [List.foldl_cons]
    show rest.foldl _ (some [a]) = _
    rw [upsertFold_group_some]
    simp

theorem mem_dedupGroup (g : List ClassifiedAd) (ca : ClassifiedAd)
    (h : ca ∈ dedupGroup g) : ca ∈ g := by
  unfold dedupGroup at h
  split at h
  · exact List.mem_of_mem_filter h
  · exact h

theorem flatten_filter_groups (m : List (Option Priority × List ClassifiedAd))
    (q : Option Priority)
    (hinv : ∀ p ∈ m, ∀ ca ∈ p.2, ca.priority = p.1)
    (hnodup : (m.map Prod.fst).Nodup) :
    ((m.map (fun g => dedupGroup g.2)).flatten).filter (fun ca => ca.priority = q) =
      ((lookupKey m q).map dedupGroup).getD [] := by
  induction m with
  | nil => rfl
  | cons p m ih =>
    obtain ⟨k, g⟩ := p
    have hg : ∀ ca ∈ g, ca.priority = k :=
      fun ca hca => hinv (k, g) (List.mem_cons_self _ _) ca hca
    have hnc : k ∉ m.map Prod.fst ∧ (m.map Prod.fst).Nodup := by
      simpa [List.nodup_cons] using hnodup
    have htail := ih (fun q2 hq2 => hinv q2 (List.mem_cons_of_mem _ hq2)) hnc.2
    rw [List.map_cons, List.flatten_cons, List.filter_append, lookupKey_cons]
    by_cases h : k = q
    · subst h
      have hhead : (dedupGroup g).filter (fun ca => ca.priority = k) = dedupGroup g := by
        apply List.filter_eq_self.mpr
        intro ca hca
        simp [hg ca (mem_dedupGroup g ca hca)]
      have hlm : lookupKey m k = none := by
        rw [lookupKey_eq_none_iff]
        intro q2 hq2 hq2k
        apply hnc.1
        rw [← hq2k]
        exact List.mem_map_of_mem Prod.fst hq2
      rw [hlm] at htail
      rw [hhead, htail]
      simp
    · have hhead : (dedupGroup g).filter (fun ca => ca.priority = q) = [] := by
        rw [List.filter_eq_nil]
        intro ca hca
        simp [hg ca (mem_dedupGroup g ca hca), h]
      rw [hhead, htail]
      simp [h]

theorem dedupSelected_filter (cas : List ClassifiedAd) (q : Option Priority) :
    (dedupSelected cas).filter (fun ca => ca.priority = q) =
      dedupGroup (cas.filter (fun ca => ca.priority = q)) := by
  unfold dedupSelected
  have hinv : ∀ p ∈ groupByPriority cas, ∀ ca ∈ p.2, ca.priority = p.1 := by
    apply foldl_dictUpsert_entry_prop (fun ca : ClassifiedAd => ca.priority)
      (fun ca => [ca]) (fun g ca => g ++ [ca])
      (fun k g => ∀ ca ∈ g, ca.priority = k)
    · intro x _ ca hca
      simp at hca
      rw [hca]
    · intro x _ v hv ca hca
      rcases List.mem_append.mp hca with h | h
      · exact hv ca h
      · simp at h
        rw [h]
    · intro p hp
      cases hp
  have hnodup : ((groupByPriority cas).map Prod.fst).Nodup :=
    foldl_dictUpsert_keys_nodup _ _ _ _ _ (by simp)
  rw [flatten_filter_groups _ q hinv hnodup, groupByPriority_lookup]
  by_cases hf : cas.filter (fun ca => ca.priority = q) = []
  · rw [if_pos hf, hf]
    rfl
  · rw [if_neg hf]
    rfl

theorem dedupStep_eq_dictUpsert :
    dedupStep = dictUpsert dedupKey (fun a => a) pickHigher := by
  funext m a
  unfold dedupStep dictUpsert
  cases hl : lookupKey m (dedupKey a) with
  | none => rfl
  | some cur =>
    unfold pickHigher
    by_cases h : cur.impression_lower < a.impression_lower
    · simp [h]
    · simp [h, setKey_self_eq m (dedupKey a) cur hl]

theorem dedup_lookup (ads : List ScrapedAd) (k : String) :
    lookupKey (ads.foldl dedupStep []) k =
      (ads.filter (fun a => dedupKey a = k)).foldl
        (upsertFold (fun a => a) pickHigher) none := by
  rw [dedupStep_eq_dictUpsert, foldl_dictUpsert_lookup]
  rfl

theorem upsertFold_pick_some (l : List ScrapedAd) (c : ScrapedAd) :
    l.foldl (upsertFold (fun a => a) pickHigher) (some c)
      = some (l.foldl pickHigher c) := by
  induction l generalizing c with
  | nil => rfl
  | cons a rest ih =>
    rw [List.foldl_cons, List.foldl_cons]
    exact ih (pickHigher c a)

theorem foldl_pickHigher_mem (l : List ScrapedAd) (c : ScrapedAd) :
    l.foldl pickHigher c ∈ c :: l := by
  induction l generalizing c with
  | nil => simp
  | cons a rest ih =>
    rw [List.foldl_cons]
    have hpick : pickHigher c a = a ∨ pickHigher c a = c := by
      unfold pickHigher
      split_ifs
      · exact Or.inl rfl
      · exact Or.inr rfl
    rcases hpick with h2 | h2 <;> rw [h2]
    · rcases List.mem_cons.mp (ih a) with h1 | h1
      · rw [h1]
        exact List.mem_cons_of_mem _ (List.mem_cons_self _ _)
      · exact List.mem_cons_of_mem _ (List.mem_cons_of_mem _ h1)
    · rcases List.mem_cons.mp (ih c) with h1 | h1
      · rw [h1]
        exact List.mem_cons_self _ _
      · exact List.mem_cons_of_mem _ (List.mem_cons_of_mem _ h1)

theorem foldl_pickHigher_imp (l : List ScrapedAd) (c : ScrapedAd) :
    (l.foldl pickHigher c).impression_lower =
      l.foldl (fun m b => max m b.impression_lower) c.impression_lower := by
  induction l generalizing c with
  | nil => rfl
  | cons a rest ih =>
    rw [List.foldl_cons, List.foldl_cons, ih (pickHigher c a)]
    congr 1
    unfold pickHigher
    split_ifs with h
    · exact (max_eq_right h.le).symm
    · exact (max_eq_left (not_lt.mp h)).symm

theorem dedup_winner (l : List ScrapedAd) (h : l ≠ []) :
    ∃ w, l.foldl (upsertFold (fun a => a) pickHigher) none = some w ∧ w ∈ l
      ∧ w.impression_lower = maxImpression l := by
  cases l with
  | nil => exact absurd rfl h
  | cons a rest =>
    refine ⟨rest.foldl pickHigher a, ?_, ?_, ?_⟩
    · rw [List.foldl_cons]
      exact upsertFold_pick_some rest a
    · exact foldl_pickHigher_mem rest a
    · rw [foldl_pickHigher_imp]
      rfl

theorem deduplicate_kept_filter (ads : List ScrapedAd) (k : String) :
    (deduplicate_ads ads).1.filter (fun a => dedupKey a = k) =
      ((lookupKey (ads.foldl dedupStep []) k).map (fun w => [w])).getD [] := by
  have hinv : ∀ p ∈ ads.foldl dedupStep [], dedupKey p.2 = p.1 := by
    rw [dedupStep_eq_dictUpsert]
    apply foldl_dictUpsert_entry_prop dedupKey (fun a => a) pickHigher
      (fun k0 v => dedupKey v = k0)
    · intro x _
      rfl
    · intro x _ v hv
      unfold pickHigher
      split_ifs
      · rfl
      · exact hv
    · intro p hp
      cases hp
  have hnodup : ((ads.foldl dedupStep []).map Prod.fst).Nodup := by
    rw [dedupStep_eq_dictUpsert]
    exact foldl_dictUpsert_keys_nodup _ _ _ _ _ (by simp)
  exact values_filter_of_inv dedupKey _ k hinv hnodup

theorem dedup_kept_mem (ads : List ScrapedAd) (v : ScrapedAd)
    (hv : v ∈ (deduplicate_ads ads).1) : v ∈ ads := by
  unfold deduplicate_ads at hv
  obtain ⟨q, hq, rfl⟩ := List.mem_map.mp hv
  have hq2 := hq
  rw [dedupStep_eq_dictUpsert] at hq2
  exact foldl_dictUpsert_entry_prop dedupKey (fun a => a) pickHigher
    (fun _ v => v ∈ ads) ads []
    (fun x hx => hx)
    (fun x hx v hv => by
      unfold pickHigher
      split_ifs
      · exact hx
      · exact hv)
    (fun p hp => by cases hp) q hq2

theorem filter_eq_singleton_of_unique {α : Type} {l : List α} {p : α → Bool} {w : α}
    (hnodup : l.Nodup) (hw : w ∈ l) (hpw : p w = true)
    (huniq : ∀ x ∈ l, p x = true → x = w) :
    l.filter p = [w] := by
  induction l with
  | nil => cases hw
  | cons a rest ih =>
    have hna : a ∉ rest := (List.nodup_cons.mp hnodup).1
    rcases List.mem_cons.mp hw with rfl | hw2
    · rw [List.filter_cons, if_pos hpw]
      have hrest : rest.filter p = [] := by
        rw [List.filter_eq_nil]
        intro x hx hpx
        have := huniq x (List.mem_cons_of_mem _ hx) hpx
        rw [this] at hx
        exact hna hx
      rw [hrest]
    · have hpa : ¬ p a = true := by
        intro hpa
        have := huniq a (List.mem_cons_self _ _) hpa
        rw [this] at hna
        exact hna hw2
      rw [List.filter_cons, if_neg hpa]
      exact ih (List.nodup_cons.mp hnodup).2 hw2
        (fun x hx hpx => huniq x (List.mem_cons_of_mem _ hx) hpx)

theorem upsertFold_some {α β : Type} (init : β → α) (upd : α → β → α)
    (l : List β) (c : α) :
    l.foldl (upsertFold init upd) (some c) = some (l.foldl upd c) := by
  induction l generalizing c with
  | nil => rfl
  | cons a rest ih =>
    rw [List.foldl_cons, List.foldl_cons]
    exact ih (upd c a)

theorem lookup_of_mem_nodup {κ α : Type} [DecidableEq κ] (m : List (κ × α)) (k : κ)
    (v : α) (hnodup : (m.map Prod.fst).Nodup) (hmem : (k, v) ∈ m) :
    lookupKey m k = some v := by
  induction m with
  | nil => cases hmem
  | cons p m ih =>
    obtain ⟨k0, v0⟩ := p
    have hnc : k0 ∉ m.map Prod.fst ∧ (m.map Prod.fst).Nodup := by
      simpa [List.nodup_cons] using hnodup
    rw [lookupKey_cons]
    rcases List.mem_cons.mp hmem with h | h
    · injection h with h1 h2
      subst h1
      subst h2
      simp
    · have hk : k0 ≠ k := by
        intro hkk
        apply hnc.1
        rw [hkk]
        have : (k, v).1 ∈ m.map Prod.fst := List.mem_map_of_mem Prod.fst h
        exact this
      rw [if_neg hk]
      exact ih hnc.2 h

theorem mostRecentStep_some (parseDate : String → Option Int) (m0 : Int)
    (ad : ScrapedAd) :
    ∃ m1, mostRecentStep parseDate (some m0) ad = some m1 := by
  unfold mostRecentStep
  cases hp : parsedLaunch parseDate ad.started_running with
  | none => exact ⟨m0, rfl⟩
  | some l =>
    by_cases h : m0 < l
    · exact ⟨l, by simp [h]⟩
    · exact ⟨m0, by simp [h]⟩

theorem foldl_mostRecentStep_some (parseDate : String → Option Int)
    (ads : List ScrapedAd) (m0 : Int) :
    ∃ m1, ads.foldl (mostRecentStep parseDate) (some m0) = some m1 := by
  induction ads generalizing m0 with
  | nil => exact ⟨m0, rfl⟩
  | cons a rest ih =>
    rw [List.foldl_cons]
    obtain ⟨m1, hm1⟩ := mostRecentStep_some parseDate m0 a
    rw [hm1]
    exact ih m1

theorem mostRecent_none_all (parseDate : String → Option Int) (ads : List ScrapedAd)
    (h : mostRecentLaunch parseDate ads = none) :
    ∀ ad ∈ ads, parsedLaunch parseDate ad.started_running = none := by
  unfold mostRecentLaunch at h
  induction ads with
  | nil => intro ad had; cases had
  | cons a rest ih =>
    rw [List.foldl_cons] at h
    cases hp : parsedLaunch parseDate a.started_running with
    | some l =>
      have hstep : mostRecentStep parseDate none a = some l := by
        unfold mostRecentStep
        rw [hp]
      rw [hstep] at h
      obtain ⟨m1, hm1⟩ := foldl_mostRecentStep_some parseDate rest l
      rw [hm1] at h
      cases h
    | none =>
      have hstep : mostRecentStep parseDate none a = none := by
        unfold mostRecentStep
        rw [hp]
      rw [hstep] at h
      intro ad had
      rcases List.mem_cons.mp had with rfl | had2
      · exact hp
      · exact ih h ad had2

theorem updateEntry_no_parse (parseDate : String → Option Int) (t1 t2 : Int)
    (e : AdvertiserEntry) (ad : ScrapedAd)
    (h : parsedLaunch parseDate ad.started_running = none) :
    updateEntry parseDate t1 e ad = updateEntry parseDate t2 e ad := by
  unfold updateEntry
  rw [h]
  rfl

theorem aggStep_no_parse (parseDate : String → Option Int) (t1 t2 : Int)
    (m : List (String × AdvertiserEntry)) (ad : ScrapedAd)
    (h : parsedLaunch parseDate ad.started_running = none) :
    aggStep parseDate t1 m ad = aggStep parseDate t2 m ad := by
  unfold aggStep dictUpsert
  cases hl : lookupKey m ad.page_name with
  | none =>
    dsimp only
    rw [updateEntry_no_parse parseDate t1 t2 (freshEntry ad) ad h]
  | some e =>
    dsimp only
    rw [updateEntry_no_parse parseDate t1 t2 e ad h]

theorem agg_fold_no_parse (parseDate : String → Option Int) (t1 t2 : Int)
    (ads : List ScrapedAd)
    (h : ∀ ad ∈ ads, parsedLaunch parseDate ad.started_running = none) :
    ∀ m, ads.foldl (aggStep parseDate t1) m = ads.foldl (aggStep parseDate t2) m := by
  induction ads with
  | nil => intro m; rfl
  | cons a rest ih =>
    intro m
    rw [List.foldl_cons, List.foldl_cons,
      aggStep_no_parse parseDate t1 t2 m a (h a (List.mem_cons_self _ _))]
    exact ih (fun ad had => h ad (List.mem_cons_of_mem _ had)) _

theorem bumpAdCount_counts (e : AdvertiserEntry) :
    (bumpAdCount e).page_name = e.page_name ∧
    (bumpAdCount e).ad_count = e.ad_count + 1 ∧
    (bumpAdCount e).active_ad_count = e.active_ad_count ∧
    (bumpAdCount e).recent_ad_count = e.recent_ad_count :=
  ⟨rfl, rfl, rfl, rfl⟩

theorem bumpActive_counts (st : Option String) (e : AdvertiserEntry) :
    (bumpActive st e).page_name = e.page_name ∧
    (bumpActive st e).ad_count = e.ad_count ∧
    (bumpActive st e).active_ad_count
      = e.active_ad_count + (if truthyStr st then 1 else 0) ∧
    (bumpActive st e).recent_ad_count = e.recent_ad_count := by
  unfold bumpActive
  split <;> simp_all

theorem setEarliest_counts (l : Int) (e : AdvertiserEntry) :
    (setEarliest l e).page_name = e.page_name ∧
    (setEarliest l e).ad_count = e.ad_count ∧
    (setEarliest l e).active_ad_count = e.active_ad_count ∧
    (setEarliest l e).recent_ad_count = e.recent_ad_count := by
  unfold setEarliest
  repeat' split
  all_goals exact ⟨rfl, rfl, rfl, rfl⟩

theorem setLatest_counts (l : Int) (e : AdvertiserEntry) :
    (setLatest l e).page_name = e.page_name ∧
    (setLatest l e).ad_count = e.ad_count ∧
    (setLatest l e).active_ad_count = e.active_ad_count ∧
    (setLatest l e).recent_ad_count = e.recent_ad_count := by
  unfold setLatest
  repeat' split
  all_goals exact ⟨rfl, rfl, rfl, rfl⟩

theorem setEL_counts (l : Int) (e : AdvertiserEntry) :
    (setLatest l (setEarliest l e)).page_name = e.page_name ∧
    (setLatest l (setEarliest l e)).ad_count = e.ad_count ∧
    (setLatest l (setEarliest l e)).active_ad_count = e.active_ad_count ∧
    (setLatest l (setEarliest l e)).recent_ad_count = e.recent_ad_count := by
  have h1 := setEarliest_counts l e
  have h2 := setLatest_counts l (setEarliest l e)
  exact ⟨h2.1.trans h1.1, h2.2.1.trans h1.2.1, h2.2.2.1.trans h1.2.2.1,
    h2.2.2.2.trans h1.2.2.2⟩

theorem applyLaunch_counts (t : Int) (lo : Option Int) (e : AdvertiserEntry) :
    (applyLaunch t lo e).page_name = e.page_name ∧
    (applyLaunch t lo e).ad_count = e.ad_count ∧
    (applyLaunch t lo e).active_ad_count = e.active_ad_count ∧
    e.recent_ad_count ≤ (applyLaunch t lo e).recent_ad_count ∧
    (applyLaunch t lo e).recent_ad_count
      ≤ e.recent_ad_count + (if lo.isSome then 1 else 0) := by
  cases lo with
  | none => simp [applyLaunch]
  | some l =>
    unfold applyLaunch
    dsimp only
    by_cases hrec : t ≤ l
    · rw [if_pos hrec]
      have h := setEL_counts l { e with recent_ad_count := e.recent_ad_count + 1 }
      refine ⟨h.1, h.2.1, h.2.2.1, ?_, ?_⟩
      · rw [h.2.2.2]
        simp
      · rw [h.2.2.2]
        simp
    · rw [if_neg hrec]
      have h := setEL_counts l e
      refine ⟨h.1, h.2.1, h.2.2.1, ?_, ?_⟩
      · rw [h.2.2.2]
      · rw [h.2.2.2]
        simp

theorem addImpressions_counts (lo : Int) (up : Option Int) (e : AdvertiserEntry) :
    (addImpressions lo up e).page_name = e.page_name ∧
    (addImpressions lo up e).ad_count = e.ad_count ∧
    (addImpressions lo up e).active_ad_count = e.active_ad_count ∧
    (addImpressions lo up e).recent_ad_count = e.recent_ad_count := by
  unfold addImpressions
  dsimp only
  repeat' split
  all_goals exact ⟨rfl, rfl, rfl, rfl⟩

theorem addHeadline_counts (hOpt : Option String) (e : AdvertiserEntry) :
    (addHeadline hOpt e).page_name = e.page_name ∧
    (addHeadline hOpt e).ad_count = e.ad_count ∧
    (addHeadline hOpt e).active_ad_count = e.active_ad_count ∧
    (addHeadline hOpt e).recent_ad_count = e.recent_ad_count := by
  unfold addHeadline
  repeat' split
  all_goals exact ⟨rfl, rfl, rfl, rfl⟩

theorem parsedLaunch_some_truthy (parseDate : String → Option Int)
    (x : Option String) (L : Int) (h : parsedLaunch parseDate x = some L) :
    truthyStr x = true := by
  cases x with
  | none => simp [parsedLaunch] at h
  | some s =>
    by_cases hs : s = ""
    · rw [show parsedLaunch parseDate (some s) = none from by
        simp [parsedLaunch, hs]] at h
      cases h
    · simp [truthyStr, hs]

theorem updateEntry_page_name (parseDate : String → Option Int) (t : Int)
    (e : AdvertiserEntry) (ad : ScrapedAd) :
    (updateEntry parseDate t e ad).page_name = e.page_name := by
  unfold updateEntry
  rw [(addHeadline_counts _ _).1, (addImpressions_counts _ _ _).1,
    (applyLaunch_counts _ _ _).1, (bumpActive_counts _ _).1]
  rfl

theorem updateEntry_ad_count (parseDate : String → Option Int) (t : Int)
    (e : AdvertiserEntry) (ad : ScrapedAd) :
    (updateEntry parseDate t e ad).ad_count = e.ad_count + 1 := by
  unfold updateEntry
  rw [(addHeadline_counts _ _).2.1, (addImpressions_counts _ _ _).2.1,
    (applyLaunch_counts _ _ _).2.1, (bumpActive_counts _ _).2.1]
  rfl

theorem updateEntry_active (parseDate : String → Option Int) (t : Int)
    (e : AdvertiserEntry) (ad : ScrapedAd) :
    (updateEntry parseDate t e ad).active_ad_count
      = e.active_ad_count + (if truthyStr ad.started_running then 1 else 0) := by
  unfold updateEntry
  rw [(addHeadline_counts _ _).2.2.1, (addImpressions_counts _ _ _).2.2.1,
    (applyLaunch_counts _ _ _).2.2.1, (bumpActive_counts _ _).2.2.1]
  rfl

theorem updateEntry_recent (parseDate : String → Option Int) (t : Int)
    (e : AdvertiserEntry) (ad : ScrapedAd) :
    e.recent_ad_count ≤ (updateEntry parseDate t e ad).recent_ad_count ∧
    (updateEntry parseDate t e ad).recent_ad_count
      ≤ e.recent_ad_count + (if truthyStr ad.started_running then 1 else 0) := by
  unfold updateEntry
  rw [(addHeadline_counts _ _).2.2.2, (addImpressions_counts _ _ _).2.2.2]
  have hb : (bumpActive ad.started_running (bumpAdCount e)).recent_ad_count
      = e.recent_ad_count := by
    rw [(bumpActive_counts _ _).2.2.2]
    exact rfl
  have hl := applyLaunch_counts t (parsedLaunch parseDate ad.started_running)
    (bumpActive ad.started_running (bumpAdCount e))
  have hlo := hl.2.2.2.1
  have hhi := hl.2.2.2.2
  rw [hb] at hlo hhi
  constructor
  · exact hlo
  · cases hp : parsedLaunch parseDate ad.started_running with
    | none =>
      rw [hp] at hhi
      simp only [Option.isSome_none, Bool.false_eq_true, if_false] at hhi
      omega
    | some L =>
      have ht := parsedLaunch_some_truthy parseDate ad.started_running L hp
      rw [hp] at hhi
      simp only [Option.isSome_some, if_true] at hhi
      rw [ht]
      simpa using hhi

theorem foldl_updateEntry_counts (parseDate : String → Option Int) (t : Int)
    (l : List ScrapedAd) : ∀ e0 : AdvertiserEntry,
    ((l.foldl (updateEntry parseDate t) e0).ad_count = e0.ad_count + l.length) ∧
    ((l.foldl (updateEntry parseDate t) e0).active_ad_count = e0.active_ad_count
      + (l.filter (fun ad => truthyStr ad.started_running)).length) ∧
    ((l.foldl (updateEntry parseDate t) e0).recent_ad_count ≤ e0.recent_ad_count
      + (l.filter (fun ad => truthyStr ad.started_running)).length) := by
  induction l with
  | nil => intro e0; simp
  | cons a rest ih =>
    intro e0
    rw [List.foldl_cons]
    obtain ⟨ih1, ih2, ih3⟩ := ih (updateEntry parseDate t e0 a)
    have h1 := updateEntry_ad_count parseDate t e0 a
    have h2 := updateEntry_active parseDate t e0 a
    have h3 := updateEntry_recent parseDate t e0 a
    by_cases hta : truthyStr a.started_running = true
    · have hfc : (a :: rest).filter (fun ad => truthyStr ad.started_running)
          = a :: rest.filter (fun ad => truthyStr ad.started_running) := by
        simp [List.filter_cons, hta]
      rw [hta, if_pos rfl] at h2 h3
      obtain ⟨h3a, h3b⟩ := h3
      rw [hfc]
      simp only [List.length_cons]
      refine ⟨by omega, by omega, by omega⟩
    · have hfc : (a :: rest).filter (fun ad => truthyStr ad.started_running)
          = rest.filter (fun ad => truthyStr ad.started_running) := by
        simp [List.filter_cons, hta]
      rw [if_neg hta] at h2 h3
      obtain ⟨h3a, h3b⟩ := h3
      rw [hfc]
      simp only [List.length_cons]
      refine ⟨by omega, by omega, by omega⟩

theorem agg_fold_entry_spec (parseDate : String → Option Int) (t : Int)
    (ads : List ScrapedAd) (e : AdvertiserEntry)
    (he : e ∈ (ads.foldl (aggStep parseDate t) []).map (fun p => p.2)) :
    e.active_ad_count = ((ads.filter (fun ad => ad.page_name = e.page_name)).filter
      (fun ad => truthyStr ad.started_running)).length ∧
    e.recent_ad_count ≤ e.active_ad_count ∧
    e.active_ad_count ≤ e.ad_count := by
  obtain ⟨p, hmem, hsnd⟩ := List.mem_map.mp he
  obtain ⟨k, e2⟩ := p
  subst hsnd
  dsimp only at hmem ⊢
  have hkey : ∀ p ∈ ads.foldl (aggStep parseDate t) [], p.2.page_name = p.1 := by
    unfold aggStep
    refine foldl_dictUpsert_entry_prop (fun ad : ScrapedAd => ad.page_name)
      (fun ad => updateEntry parseDate t (freshEntry ad) ad)
      (fun e ad => updateEntry parseDate t e ad)
      (fun (k0 : String) (v : AdvertiserEntry) => v.page_name = k0)
      ads [] ?_ ?_ ?_
    · intro x _
      rw [updateEntry_page_name]
      rfl
    · intro x _ v hv
      rw [updateEntry_page_name]
      exact hv
    · intro q hq
      cases hq
  have hnodup : ((ads.foldl (aggStep parseDate t) []).map Prod.fst).Nodup := by
    unfold aggStep
    exact foldl_dictUpsert_keys_nodup _ _ _ _ _ (by simp)
  have hk : e2.page_name = k := hkey (k, e2) hmem
  have hlook : lookupKey (ads.foldl (aggStep parseDate t) []) k = some e2 :=
    lookup_of_mem_nodup _ _ _ hnodup hmem
  rw [show ads.foldl (aggStep parseDate t) []
      = ads.foldl (dictUpsert (fun ad => ad.page_name)
        (fun ad => updateEntry parseDate t (freshEntry ad) ad)
        (fun e ad => updateEntry parseDate t e ad)) [] from rfl,
    foldl_dictUpsert_lookup] at hlook
  rw [hk]
  cases hfl : ads.filter (fun x => x.page_name = k) with
  | nil =>
    rw [hfl] at hlook
    cases hlook
  | cons a rest =>
    rw [hfl, List.foldl_cons] at hlook
    rw [show upsertFold (fun ad => updateEntry parseDate t (freshEntry ad) ad)
        (fun e ad => updateEntry parseDate t e ad) (lookupKey [] k) a
        = some (updateEntry parseDate t (freshEntry a) a) from rfl,
      upsertFold_some] at hlook
    have he2 : e2 = rest.foldl (updateEntry parseDate t)
        (updateEntry parseDate t (freshEntry a) a) := (Option.some.inj hlook).symm
    obtain ⟨hc1, hc2, hc3⟩ := foldl_updateEntry_counts parseDate t rest
      (updateEntry parseDate t (freshEntry a) a)
    have hf1 := updateEntry_ad_count parseDate t (freshEntry a) a
    have hf2 := updateEntry_active parseDate t (freshEntry a) a
    obtain ⟨hf3a, hf3b⟩ := updateEntry_recent parseDate t (freshEntry a) a
    have hfr1 : (freshEntry a).ad_count = 0 := rfl
    have hfr2 : (freshEntry a).active_ad_count = 0 := rfl
    have hfr3 : (freshEntry a).recent_ad_count = 0 := rfl
    rw [hfr1] at hf1
    rw [hfr2] at hf2
    rw [hfr3] at hf3a hf3b
    rw [he2]
    by_cases hta : truthyStr a.started_running = true
    · have hfc : (a :: rest).filter (fun ad => truthyStr ad.started_running)
          = a :: rest.filter (fun ad => truthyStr ad.started_running) := by
        simp [List.filter_cons, hta]
      rw [hta, if_pos rfl] at hf2 hf3b
      rw [hfc]
      simp only [List.length_cons]
      have hle : (rest.filter (fun ad => truthyStr ad.started_running)).length
          ≤ rest.length := List.length_filter_le _ _
      refine ⟨by omega, by omega, by omega⟩
    · have hfc : (a :: rest).filter (fun ad => truthyStr ad.started_running)
          = rest.filter (fun ad => truthyStr ad.started_running) := by
        simp [List.filter_cons, hta]
      rw [if_neg hta] at hf2 hf3b
      rw [hfc]
      have hle : (rest.filter (fun ad => truthyStr ad.started_running)).length
          ≤ rest.length := List.length_filter_le _ _
      refine ⟨by omega, by omega, by omega⟩

theorem dedupFSP_prefix (b : List ScrapedAd) : ∀ (acc : List ScrapedAd)
    (seen : List String), ∃ extra, (dedupFSP acc seen b).1 = acc ++ extra := by
  induction b with
  | nil => intro acc seen; exact ⟨[], by simp [dedupFSP]⟩
  | cons ad rest ih =>
    intro acc seen
    by_cases hid : ad.ad_id ∈ seen
    · simp only [dedupFSP, if_pos hid]
      exact ih acc seen
    · simp only [dedupFSP, if_neg hid]
      obtain ⟨extra, hx⟩ := ih (acc ++ [{ ad with scrape_position := acc.length }])
        (ad.ad_id :: seen)
      exact ⟨{ ad with scrape_position := acc.length } :: extra, by
        rw [hx, List.append_assoc]
        rfl⟩

theorem dedupFSP_append (s : List ScrapedAd) : ∀ (b : List ScrapedAd)
    (acc : List ScrapedAd) (seen : List String),
    dedupFSP acc seen (s ++ b)
      = dedupFSP (dedupFSP acc seen s).1 (dedupFSP acc seen s).2 b := by
  induction s with
  | nil => intro b acc seen; rfl
  | cons ad rest ih =>
    intro b acc seen
    by_cases hid : ad.ad_id ∈ seen
    · rw [List.cons_append]
      simp only [dedupFSP, if_pos hid]
      exact ih b acc seen
    · rw [List.cons_append]
      simp only [dedupFSP, if_neg hid]
      exact ih b _ _

theorem mergedUpTo_succ (env : CrawlEnv) (r : Nat) :
    mergedUpTo env (r + 1) = mergedUpTo env r ++ env.extract (2 * r) := by
  unfold mergedUpTo
  rw [List.range_succ, List.map_append, List.flatten_append]
  simp

theorem addCards_dedup (maxAds : Nat) (b : List ScrapedAd) : ∀ (acc : List ScrapedAd)
    (seen : List String), acc.length < maxAds →
    ((addCards maxAds acc seen b).1 = ((dedupFSP acc seen b).1).take maxAds) ∧
    ((addCards maxAds acc seen b).1.length < maxAds →
      addCards maxAds acc seen b = dedupFSP acc seen b) ∧
    (addCards maxAds acc seen b).1.length ≤ maxAds := by
  induction b with
  | nil =>
    intro acc seen hlen
    simp only [addCards, dedupFSP]
    exact ⟨(List.take_of_length_le (le_of_lt hlen)).symm,
      fun _ => trivial, le_of_lt hlen⟩
  | cons ad rest ih =>
    intro acc seen hlen
    by_cases hid : ad.ad_id ∈ seen
    · simp only [addCards, dedupFSP, if_pos hid]
      exact ih acc seen hlen
    · simp only [addCards, dedupFSP, if_neg hid]
      by_cases hfull : maxAds ≤ (acc ++ [{ ad with scrape_position := acc.length }]).length
      · rw [if_pos hfull]
        have hlen2 : (acc ++ [{ ad with scrape_position := acc.length }]).length
            = maxAds := by
          rw [List.length_append] at hfull ⊢
          simp only [List.length_singleton] at hfull ⊢
          omega
        obtain ⟨extra, hx⟩ := dedupFSP_prefix rest
          (acc ++ [{ ad with scrape_position := acc.length }]) (ad.ad_id :: seen)
        refine ⟨?_, ?_, ?_⟩
        · rw [hx, ← hlen2, List.take_left]
        · intro hcontra
          rw [hlen2] at hcontra
          omega
        · rw [hlen2]
      · rw [if_neg hfull]
        exact ih _ _ (Nat.lt_of_not_le hfull)

theorem dedupFSP_invariant (b : List ScrapedAd) : ∀ (acc : List ScrapedAd)
    (seen : List String),
    (∀ i (hi : i < acc.length), (acc[i]).scrape_position = i) →
    ((acc.map (fun a => a.ad_id)).Nodup) →
    (∀ a ∈ acc, a.ad_id ∈ seen) →
    (∀ i (hi : i < (dedupFSP acc seen b).1.length),
      (((dedupFSP acc seen b).1)[i]).scrape_position = i) ∧
    (((dedupFSP acc seen b).1.map (fun a => a.ad_id)).Nodup) ∧
    (∀ a ∈ (dedupFSP acc seen b).1, a.ad_id ∈ (dedupFSP acc seen b).2) := by
  induction b with
  | nil =>
    intro acc seen h1 h2 h3
    exact ⟨h1, h2, h3⟩
  | cons ad rest ih =>
    intro acc seen h1 h2 h3
    by_cases hid : ad.ad_id ∈ seen
    · simp only [dedupFSP, if_pos hid]
      exact ih acc seen h1 h2 h3
    · simp only [dedupFSP, if_neg hid]
      apply ih
      · intro i hi
        rw [List.length_append, List.length_singleton] at hi
        rcases Nat.lt_or_ge i acc.length with hlt | hge
        · rw [List.getElem_append_left hlt]
          exact h1 i hlt
        · have hieq : i = acc.length := by omega
          subst hieq
          simp [List.getElem_concat_length]
      · rw [List.map_append]
        rw [List.nodup_append]
        refine ⟨h2, List.nodup_singleton _, ?_⟩
        intro x hx hmem
        simp only [List.map_cons, List.map_nil, List.mem_singleton] at hmem
        subst hmem
        obtain ⟨a, ha, haid⟩ := List.mem_map.mp hx
        exact hid (haid ▸ h3 a ha)
      · intro a ha
        rcases List.mem_append.mp ha with h | h
        · exact List.mem_cons_of_mem _ (h3 a h)
        · simp only [List.mem_singleton] at h
          rw [h]
          exact List.mem_cons_self _ _

theorem scrapeGo_spec (env : CrawlEnv) (maxAds : Nat) : ∀ (fuel r attempts stale : Nat)
    (ads : List ScrapedAd) (seen : List String),
    (ads, seen) = dedupFSP [] [] (mergedUpTo env r) →
    ads.length ≤ maxAds →
    ∃ R, (scrapeGo env maxAds fuel (2 * r) attempts stale ads seen).ads
      = ((dedupFSP [] [] (mergedUpTo env R)).1).take maxAds := by
  intro fuel
  induction fuel with
  | zero =>
    intro r attempts stale ads seen hpair hlen
    refine ⟨r, ?_⟩
    show ads = _
    have hads : ads = (dedupFSP [] [] (mergedUpTo env r)).1 := congrArg Prod.fst hpair
    rw [← hads, List.take_of_length_le hlen]
  | succ fuel ih =>
    intro r attempts stale ads seen hpair hlen
    have hads : ads = (dedupFSP [] [] (mergedUpTo env r)).1 := congrArg Prod.fst hpair
    by_cases htop : maxAds ≤ ads.length
    · refine ⟨r, ?_⟩
      simp only [scrapeGo, if_pos htop]
      rw [← hads, List.take_of_length_le hlen]
    · have hlt : ads.length < maxAds := Nat.lt_of_not_le htop
      obtain ⟨hc1, hc2, hc3⟩ := addCards_dedup maxAds (env.extract (2 * r)) ads seen hlt
      have hds : dedupFSP ads seen (env.extract (2 * r))
          = dedupFSP [] [] (mergedUpTo env (r + 1)) := by
        rw [mergedUpTo_succ, dedupFSP_append, ← hpair]
      simp only [scrapeGo, if_neg htop]
      by_cases hfull : maxAds ≤ (addCards maxAds ads seen (env.extract (2 * r))).1.length
      · rw [if_pos hfull]
        refine ⟨r + 1, ?_⟩
        dsimp only
        rw [hc1, hds]
      · rw [if_neg hfull]
        have hexact := hc2 (Nat.lt_of_not_le hfull)
        have hpair2 : ((addCards maxAds ads seen (env.extract (2 * r))).1,
            (addCards maxAds ads seen (env.extract (2 * r))).2)
            = dedupFSP [] [] (mergedUpTo env (r + 1)) := by
          rw [← hds, ← hexact]
        have h2r : 2 * r + 2 = 2 * (r + 1) := by omega
        by_cases hnc : ((env.extract (2 * r + 1)).filter
            (fun a => a.ad_id ∉ (addCards maxAds ads seen (env.extract (2 * r))).2)).length = 0
        · rw [if_pos hnc]
          by_cases hlm : env.loadMore (attempts + 1) = true
          · rw [if_pos hlm, h2r]
            exact ih (r + 1) (attempts + 1) 0 _ _ hpair2 hc3
          · rw [if_neg hlm]
            by_cases hst : 5 ≤ stale + 1
            · rw [if_pos hst]
              refine ⟨r + 1, ?_⟩
              dsimp only
              rw [hc1, hds]
            · rw [if_neg hst, h2r]
              exact ih (r + 1) (attempts + 1) (stale + 1) _ _ hpair2 hc3
        · rw [if_neg hnc, h2r]
          exact ih (r + 1) (attempts + 1) 0 _ _ hpair2 hc3

/- ===== Theorems ===== -/

/-- C1: classify_ad is total and exclusive: for every ad, config and
reference time, the returned priority is non-null exactly when the returned
skip_reason is null — never both set, never both null. -/
theorem C1_classify_totality (parseDate : String → Option Int) (ad : ScrapedAd)
    (cfg : SelectionConfig) (now : Int) :
    (classify_ad parseDate ad cfg now).priority.isSome ↔
      (classify_ad parseDate ad cfg now).skip_reason = none := by
  unfold classify_ad classifyCore impressionOnlyClassify
  repeat' split
  all_goals simp

/-- C4: an ad whose primary text has at least the default minimum of 50 words
and whose launch date is absent or unparseable always receives a priority
(P1 when impressions reach 50000, P2 when they reach 10000, else P4 — also
for zero impressions) and never a skip reason. -/
theorem C4_no_date_never_dropped (parseDate : String → Option Int) (ad : ScrapedAd)
    (now : Int)
    (hnodate : parsedLaunch parseDate ad.started_running = none)
    (hwords : 50 ≤ (max_primary_text_words ad : Int)) :
    (classify_ad parseDate ad defaultSelectionConfig now).skip_reason = none ∧
    (classify_ad parseDate ad defaultSelectionConfig now).priority =
      some (if 50000 ≤ ad.impression_lower then Priority.P1_ACTIVE_WINNER
        else if 10000 ≤ ad.impression_lower then Priority.P2_PROVEN_RECENT
        else if 0 < ad.impression_lower then Priority.P4_RECENT_MODERATE
        else Priority.P4_RECENT_MODERATE) := by
  unfold classify_ad classifyCore impressionOnlyClassify
  rw [hnodate]
  simp only [Option.map_none, defaultSelectionConfig] at *
  split_ifs <;> simp_all <;> omega

/-- C4 witness: the concrete scenario ad (no launch date, impressions 0,
100 words) is classified P4_RECENT_MODERATE and not skipped. -/
theorem C4_no_date_never_dropped_witness :
    (classify_ad (fun _ => none) adC4 defaultSelectionConfig 0).skip_reason = none ∧
    (classify_ad (fun _ => none) adC4 defaultSelectionConfig 0).priority =
      some Priority.P4_RECENT_MODERATE := by
  have h := C4_no_date_never_dropped (fun _ => none) adC4 0 rfl (by decide)
  refine ⟨h.1, ?_⟩
  rw [h.2]
  decide

/-- C3 counterexample: two ads identical except impression_lower, launch age
5 days, no skip rule triggered for either; the zero-impression ad gets P1
via the hidden-impressions fallback while the 100-impression ad gets the
strictly worse tier P3, refuting monotonicity in impressions at fixed age. -/
theorem C3_counterexample :
    adC3low.impression_lower < adC3high.impression_lower ∧
    classify_ad pdC3 adC3low defaultSelectionConfig nowC3 =
      ⟨some Priority.P1_ACTIVE_WINNER, "ACTIVE_WINNER", none, some 5⟩ ∧
    classify_ad pdC3 adC3high defaultSelectionConfig nowC3 =
      ⟨some Priority.P3_STRATEGIC_DIRECTION, "STRATEGIC_DIRECTION", none, some 5⟩ ∧
    Priority.rank Priority.P1_ACTIVE_WINNER < Priority.rank Priority.P3_STRATEGIC_DIRECTION := by
  decide

/-- C3 amended: restricted to pairs where both impression values are
positive (the zero-impression fallback path excluded), classify_ad is
monotone: at a fixed parsed launch age, with the thin-text, legacy-autopilot
and failed-test rules not triggered for either ad, the higher-impression ad
never receives a strictly worse tier. -/
theorem C3_amended_tier_monotonicity (parseDate : String → Option Int)
    (cfg : SelectionConfig) (now : Int) (ad : ScrapedAd) (i1 i2 L : Int)
    (hdate : parsedLaunch parseDate ad.started_running = some L)
    (hpos : 0 < i1) (hle : i1 ≤ i2)
    (hthin : ¬ (max_primary_text_words ad : Int) < cfg.min_primary_text_words)
    (hlegacy : ¬ cfg.skip_older_than_days ≤ Int.fdiv (now - L) 86400)
    (hfail1 : ¬ (i1 < cfg.failed_test_max_impressions
      ∧ cfg.failed_test_min_days < Int.fdiv (now - L) 86400))
    (hfail2 : ¬ (i2 < cfg.failed_test_max_impressions
      ∧ cfg.failed_test_min_days < Int.fdiv (now - L) 86400)) :
    tierRank (classify_ad parseDate { ad with impression_lower := i2 } cfg now).priority ≤
      tierRank (classify_ad parseDate { ad with impression_lower := i1 } cfg now).priority := by
  have hsr : ({ ad with impression_lower := i1 } : ScrapedAd).started_running
      = ad.started_running := rfl
  have hsr2 : ({ ad with impression_lower := i2 } : ScrapedAd).started_running
      = ad.started_running := rfl
  have hw : max_primary_text_words { ad with impression_lower := i1 }
      = max_primary_text_words ad := rfl
  have hw2 : max_primary_text_words { ad with impression_lower := i2 }
      = max_primary_text_words ad := rfl
  unfold classify_ad classifyCore
  rw [hsr, hsr2, hw, hw2, hdate]
  have h2 : (0 : Int) < i2 := lt_of_lt_of_le hpos hle
  dsimp only [Option.map]
  split_ifs <;> dsimp only [tierRank, Priority.rank] <;> omega

/-- C3 amended witness: launch age 20 days, impressions 10000 versus 60000
under the default config; the theorem applies and both ads land in tiers
with the higher-impression ad not worse. -/
theorem C3_amended_tier_monotonicity_witness :
    tierRank (classify_ad pdC3 { adC3low with impression_lower := 60000 }
      defaultSelectionConfig (20 * 86400)).priority ≤
    tierRank (classify_ad pdC3 { adC3low with impression_lower := 10000 }
      defaultSelectionConfig (20 * 86400)).priority :=
  C3_amended_tier_monotonicity pdC3 defaultSelectionConfig (20 * 86400) adC3low
    10000 60000 0 (by decide) (by decide) (by decide) (by decide) (by decide)
    (by decide) (by decide)

/-- C2 counterexample: in this run all four selected ads share one priority,
so the code skips deduplication for the whole priority group; the
(page X, text t) duplicate group has size 2 — at most 3 — yet both of its
members survive selection, refuting the claim that groups of size at most 3
keep exactly one member. -/
theorem C2_counterexample :
    (adsC2.filter
      (fun ad => ad.page_name = "X" ∧ ad.primary_text = some "t")).length = 2 ∧
    ((select_ads (fun _ => none) adsC2 cfgC2 0 0).selected.filter
      (fun ca => ca.ad.page_name = "X" ∧ ca.ad.primary_text = some "t")).length = 2 := by
  decide

/-- C2 amended: the size gate of the dedup stage is evaluated per priority
group, not per duplicate group. For input ads with pairwise distinct ad_ids:
a priority group of at least 4 selected ads is kept in full, even when it
contains literal (page_name, text) duplicates; within a priority group of at
most 3 ads, each (page_name, text) key keeps exactly one member, one holding
the maximum impression_lower of that key in the group. -/
theorem C2_amended_dedup_per_priority (cas : List ClassifiedAd) (p : Priority)
    (hids : (cas.map (fun ca => ca.ad.ad_id)).Nodup) :
    (4 ≤ (cas.filter (fun ca => ca.priority = some p)).length →
      (dedupSelected cas).filter (fun ca => ca.priority = some p) =
        cas.filter (fun ca => ca.priority = some p)) ∧
    ((cas.filter (fun ca => ca.priority = some p)).length ≤ 3 →
      ∀ k : String,
        (∃ ca ∈ cas.filter (fun ca => ca.priority = some p), dedupKey ca.ad = k) →
        ∃ w, ((dedupSelected cas).filter (fun ca => ca.priority = some p)).filter
            (fun ca => dedupKey ca.ad = k) = [w]
          ∧ w ∈ cas.filter (fun ca => ca.priority = some p)
          ∧ w.ad.impression_lower = maxImpression
              (((cas.filter (fun ca => ca.priority = some p)).map (fun ca => ca.ad)).filter
                (fun a => dedupKey a = k))) := by
  have hcentral := dedupSelected_filter cas (some p)
  constructor
  · intro h4
    rw [hcentral]
    unfold dedupGroup
    rw [if_neg (by omega)]
  · intro h3 k hk
    rw [hcentral]
    have hbranch : dedupGroup (cas.filter (fun ca => ca.priority = some p)) =
        (cas.filter (fun ca => ca.priority = some p)).filter
          (fun ca => ca.ad.ad_id ∈
            (deduplicate_ads ((cas.filter (fun ca => ca.priority = some p)).map
              (fun ca => ca.ad))).1.map (fun a => a.ad_id)) := by
      unfold dedupGroup
      rw [if_pos h3]
    obtain ⟨ca0, hca0, hca0k⟩ := hk
    have hfg_ne : ((cas.filter (fun ca => ca.priority = some p)).map
        (fun ca => ca.ad)).filter (fun a => dedupKey a = k) ≠ [] := by
      intro hnil
      have hmem : ca0.ad ∈ ((cas.filter (fun ca => ca.priority = some p)).map
          (fun ca => ca.ad)).filter (fun a => dedupKey a = k) := by
        rw [List.mem_filter]
        exact ⟨List.mem_map_of_mem _ hca0, by simp [hca0k]⟩
      rw [hnil] at hmem
      cases hmem
    obtain ⟨w, hwfold, hwmem, hwimp⟩ := dedup_winner _ hfg_ne
    have hlook : lookupKey (((cas.filter (fun ca => ca.priority = some p)).map
        (fun ca => ca.ad)).foldl dedupStep []) k = some w := by
      rw [dedup_lookup]
      exact hwfold
    have hkf : (deduplicate_ads ((cas.filter (fun ca => ca.priority = some p)).map
        (fun ca => ca.ad))).1.filter (fun a => dedupKey a = k) = [w] := by
      rw [deduplicate_kept_filter, hlook]
      rfl
    have hgidnodup : ((cas.filter (fun ca => ca.priority = some p)).map
        (fun ca => ca.ad.ad_id)).Nodup := by
      apply List.Nodup.sublist _ hids
      exact List.Sublist.map _ (List.filter_sublist cas)
    have hadsid : (((cas.filter (fun ca => ca.priority = some p)).map
        (fun ca => ca.ad)).map (fun a => a.ad_id)).Nodup := by
      rw [List.map_map]
      exact hgidnodup
    have hwadsg : w ∈ (cas.filter (fun ca => ca.priority = some p)).map
        (fun ca => ca.ad) := List.mem_of_mem_filter hwmem
    have hwkey : dedupKey w = k := by
      have h5 := (List.mem_filter.mp hwmem).2
      simpa using h5
    have hw_in_kept : w ∈ (deduplicate_ads ((cas.filter
        (fun ca => ca.priority = some p)).map (fun ca => ca.ad))).1 := by
      have h6 : w ∈ (deduplicate_ads ((cas.filter
          (fun ca => ca.priority = some p)).map (fun ca => ca.ad))).1.filter
            (fun a => dedupKey a = k) := by
        rw [hkf]
        exact List.mem_singleton.mpr rfl
      exact List.mem_of_mem_filter h6
    obtain ⟨wca, hwca_g, hwca_ad⟩ := List.mem_map.mp hwadsg
    rw [hbranch]
    refine ⟨wca, ?_, hwca_g, ?_⟩
    · apply filter_eq_singleton_of_unique
      · exact List.Nodup.filter _ (List.Nodup.of_map _ hgidnodup)
      · rw [List.mem_filter]
        refine ⟨hwca_g, ?_⟩
        have h7 : w.ad_id ∈ (deduplicate_ads ((cas.filter
            (fun ca => ca.priority = some p)).map (fun ca => ca.ad))).1.map
              (fun a => a.ad_id) := List.mem_map_of_mem _ hw_in_kept
        simpa [hwca_ad] using h7
      · simp [hwca_ad, hwkey]
      · intro x hx hpx
        rw [List.mem_filter] at hx
        obtain ⟨hxg, hxkept⟩ := hx
        have hxkept2 : x.ad.ad_id ∈ (deduplicate_ads ((cas.filter
            (fun ca => ca.priority = some p)).map (fun ca => ca.ad))).1.map
              (fun a => a.ad_id) := by
          simpa using hxkept
        obtain ⟨v, hv_kept, hv_id⟩ := List.mem_map.mp hxkept2
        have hv_in : v ∈ (cas.filter (fun ca => ca.priority = some p)).map
            (fun ca => ca.ad) := dedup_kept_mem _ v hv_kept
        have hx_in : x.ad ∈ (cas.filter (fun ca => ca.priority = some p)).map
            (fun ca => ca.ad) := List.mem_map_of_mem _ hxg
        have hxv : v = x.ad :=
          List.inj_on_of_nodup_map hadsid hv_in hx_in hv_id
        have hxkey : dedupKey x.ad = k := by
          simpa using hpx
        have hx_filter : x.ad ∈ (deduplicate_ads ((cas.filter
            (fun ca => ca.priority = some p)).map (fun ca => ca.ad))).1.filter
              (fun a => dedupKey a = k) := by
          rw [List.mem_filter]
          exact ⟨hxv ▸ hv_kept, by simp [hxkey]⟩
        rw [hkf] at hx_filter
        have hxw : x.ad = w := by
          simpa using hx_filter
        apply List.inj_on_of_nodup_map hgidnodup hxg hwca_g
        rw [hxw, hwca_ad]
    · rw [hwca_ad]
      exact hwimp

/-- C2 amended witness: the two-ad concrete selected list with one shared
priority, page and text, applied to the amended theorem. -/
theorem C2_amended_dedup_per_priority_witness :
    (4 ≤ (casC2W.filter
        (fun ca => ca.priority = some Priority.P4_RECENT_MODERATE)).length →
      (dedupSelected casC2W).filter
          (fun ca => ca.priority = some Priority.P4_RECENT_MODERATE) =
        casC2W.filter
          (fun ca => ca.priority = some Priority.P4_RECENT_MODERATE)) ∧
    ((casC2W.filter
        (fun ca => ca.priority = some Priority.P4_RECENT_MODERATE)).length ≤ 3 →
      ∀ k : String,
        (∃ ca ∈ casC2W.filter
            (fun ca => ca.priority = some Priority.P4_RECENT_MODERATE),
          dedupKey ca.ad = k) →
        ∃ w, ((dedupSelected casC2W).filter
            (fun ca => ca.priority = some Priority.P4_RECENT_MODERATE)).filter
              (fun ca => dedupKey ca.ad = k) = [w]
          ∧ w ∈ casC2W.filter
              (fun ca => ca.priority = some Priority.P4_RECENT_MODERATE)
          ∧ w.ad.impression_lower = maxImpression
              (((casC2W.filter
                  (fun ca => ca.priority = some Priority.P4_RECENT_MODERATE)).map
                    (fun ca => ca.ad)).filter (fun a => dedupKey a = k))) :=
  C2_amended_dedup_per_priority casC2W Priority.P4_RECENT_MODERATE (by decide)

/-- C7: the competition classifier returns blue_ocean when no brand count
reaches the threshold 50, thin when 1 or 2 do, normal when 3 or more do; in
particular counts A 60, B 10, C 0 yield thin with A the only qualifier. -/
theorem C7_competition_tiers (brand_ad_counts : List (String × Int)) :
    (((check_competition_level brand_ad_counts).1 = "blue_ocean" ↔
        (brand_ad_counts.filter (fun p => BLUE_OCEAN_THRESHOLD ≤ p.2)).length = 0) ∧
      ((check_competition_level brand_ad_counts).1 = "thin" ↔
        (1 ≤ (brand_ad_counts.filter (fun p => BLUE_OCEAN_THRESHOLD ≤ p.2)).length ∧
          (brand_ad_counts.filter (fun p => BLUE_OCEAN_THRESHOLD ≤ p.2)).length ≤ 2)) ∧
      ((check_competition_level brand_ad_counts).1 = "normal" ↔
        3 ≤ (brand_ad_counts.filter (fun p => BLUE_OCEAN_THRESHOLD ≤ p.2)).length)) ∧
    check_competition_level [("A", 60), ("B", 10), ("C", 0)] = ("thin", ["A"]) := by
  constructor
  · unfold check_competition_level
    simp only [List.length_map]
    split_ifs with h1 h2
    · exact ⟨iff_of_true rfl h1, iff_of_false (by simp) (by omega),
        iff_of_false (by simp) (by omega)⟩
    · exact ⟨iff_of_false (by simp) (by omega), iff_of_true rfl (by omega),
        iff_of_false (by simp) (by omega)⟩
    · exact ⟨iff_of_false (by simp) (by omega), iff_of_false (by simp) (by omega),
        iff_of_true rfl (by omega)⟩
  · decide

/-- C8: with no explicit reference time, aggregation is independent of the
wall clock — two runs on the same input agree for any two wall-clock
readings — and whenever some launch date parses, the inferred now is one day
(86400 seconds) after the most recent parsed launch date. -/
theorem C8_aggregation_reproducible (parseDate : String → Option Int)
    (ads : List ScrapedAd) (t1 t2 : Int) :
    aggregate_by_advertiser parseDate t1 ads none
      = aggregate_by_advertiser parseDate t2 ads none ∧
    (∀ m, mostRecentLaunch parseDate ads = some m →
      inferNow parseDate t1 ads = m + 86400) := by
  constructor
  · unfold aggregate_by_advertiser
    dsimp only
    cases hm : mostRecentLaunch parseDate ads with
    | some m => simp [inferNow, hm]
    | none =>
      have hall := mostRecent_none_all parseDate ads hm
      rw [agg_fold_no_parse parseDate (inferNow parseDate t1 ads - 30 * 86400)
        (inferNow parseDate t2 ads - 30 * 86400) ads hall []]
  · intro m h
    unfold inferNow
    rw [h]

/-- C8 witness: one ad launched at parsed time 0; two aggregation runs with
wall clocks 5 and 99 agree, and the inferred now is 0 plus one day. -/
theorem C8_aggregation_reproducible_witness :
    aggregate_by_advertiser pdC3 5 [adC3low] none
      = aggregate_by_advertiser pdC3 99 [adC3low] none ∧
    inferNow pdC3 5 [adC3low] = 0 + 86400 := by
  have h := C8_aggregation_reproducible pdC3 [adC3low] 5 99
  exact ⟨h.1, h.2 0 (by decide)⟩

/-- C10: every advertiser entry produced by aggregation has active_ad_count
equal to the number of that page_name's ads with a truthy started_running,
and recent_ad_count ≤ active_ad_count ≤ ad_count. -/
theorem C10_active_count_invariant (parseDate : String → Option Int)
    (wallClock : Int) (nowOpt : Option Int) (ads : List ScrapedAd)
    (e : AdvertiserEntry)
    (he : e ∈ aggregate_by_advertiser parseDate wallClock ads nowOpt) :
    e.active_ad_count = ((ads.filter (fun ad => ad.page_name = e.page_name)).filter
      (fun ad => truthyStr ad.started_running)).length ∧
    e.recent_ad_count ≤ e.active_ad_count ∧
    e.active_ad_count ≤ e.ad_count := by
  unfold aggregate_by_advertiser at he
  exact agg_fold_entry_spec parseDate _ ads e he

/-- C10 witness: the single-ad aggregation run produces the expected entry,
whose active count is 1 and whose counts are ordered. -/
theorem C10_active_count_invariant_witness :
    entC10.active_ad_count = (([adC3low].filter
        (fun ad => ad.page_name = entC10.page_name)).filter
      (fun ad => truthyStr ad.started_running)).length ∧
    entC10.recent_ad_count ≤ entC10.active_ad_count ∧
    entC10.active_ad_count ≤ entC10.ad_count :=
  C10_active_count_invariant pdC3 0 none [adC3low] entC10 (by decide)

/-- C5: for every extraction environment, the crawl output keeps exactly one
record per ad_id — it equals the first-seen deduplication of the merged
batches of some number of rounds, truncated to max_ads — its ad_ids are
pairwise distinct, each record carries scrape_position equal to its index
(so the output is ordered by first-seen position), and its length respects
max_ads. -/
theorem C5_crawl_first_seen_dedup (env : CrawlEnv) (maxAds maxScroll : Nat) :
    (((scrapeAds env maxAds maxScroll).ads.map (fun a => a.ad_id)).Nodup) ∧
    (∀ i (hi : i < (scrapeAds env maxAds maxScroll).ads.length),
      (((scrapeAds env maxAds maxScroll).ads)[i]).scrape_position = i) ∧
    ((scrapeAds env maxAds maxScroll).ads.length ≤ maxAds) ∧
    (∃ R, (scrapeAds env maxAds maxScroll).ads
      = (dedupByFirstSeen (mergedUpTo env R)).take maxAds) := by
  obtain ⟨R, hR⟩ := scrapeGo_spec env maxAds maxScroll 0 0 0 [] [] rfl (by simp)
  have hout : (scrapeAds env maxAds maxScroll).ads
      = ((dedupFSP [] [] (mergedUpTo env R)).1).take maxAds := by
    show (scrapeGo env maxAds maxScroll 0 0 0 [] []).ads.take maxAds = _
    rw [show (0 : Nat) = 2 * 0 from rfl] at hR
    rw [hR, List.take_take, Nat.min_self]
  obtain ⟨hpos, hnodup, _⟩ := dedupFSP_invariant (mergedUpTo env R) [] []
    (by intro i hi; cases hi) (by simp) (by intro a ha; cases ha)
  refine ⟨?_, ?_, ?_, ⟨R, hout⟩⟩
  · rw [hout]
    exact hnodup.sublist (List.Sublist.map _ (List.take_sublist _ _))
  · intro i hi
    simp only [hout] at hi ⊢
    have hi2 : i < (dedupFSP [] [] (mergedUpTo env R)).1.length := by
      rw [List.length_take] at hi
      omega
    simp only [List.getElem_take]
    exact hpos i hi2
  · rw [hout, List.length_take]
    omega

/-- C5 witness: the crawl properties instantiated on the concrete one-ad
environment with max_ads 10 and 50 scroll attempts. -/
theorem C5_crawl_first_seen_dedup_witness :
    (((scrapeAds envC6 10 50).ads.map (fun a => a.ad_id)).Nodup) ∧
    (∀ i (hi : i < (scrapeAds envC6 10 50).ads.length),
      (((scrapeAds envC6 10 50).ads)[i]).scrape_position = i) ∧
    ((scrapeAds envC6 10 50).ads.length ≤ 10) ∧
    (∃ R, (scrapeAds envC6 10 50).ads
      = (dedupByFirstSeen (mergedUpTo envC6 R)).take 10) :=
  C5_crawl_first_seen_dedup envC6 10 50

/-- C6 counterexample: in an environment where the first extract yields one
ad and everything after is empty with every load-more failing, every round
is stale; the claim predicts the loop exhausts after 3 consecutive stale
rounds, but the run performs 5 scroll attempts and ends with the
stale-round counter at 5. -/
theorem C6_counterexample :
    scrapeAds envC6 10 50
      = ⟨[{ adX with scrape_position := 0 }], 5, 5⟩ ∧
    (scrapeAds envC6 10 50).scrollAttempts ≠ 3 := by
  decide

/-- C6 amended: one round of the crawl loop whose merge does not reach
max_ads behaves as follows — with zero unseen ids in the post-scroll
extract, a successful load-more trigger continues with the stale counter
reset to zero, a failed trigger increments it and the loop continues while
the counter stays below 5, and the loop ends in the exhausted state exactly
when the incremented counter reaches 5 (not 3); fresh post-scroll content
also resets the counter. -/
theorem C6_amended_stale_five (env : CrawlEnv) (maxAds fuel callIdx attempts stale : Nat)
    (ads : List ScrapedAd) (seen : List String)
    (h1 : ads.length < maxAds)
    (h2 : (addCards maxAds ads seen (env.extract callIdx)).1.length < maxAds) :
    (((env.extract (callIdx + 1)).filter
        (fun a => a.ad_id ∉ (addCards maxAds ads seen (env.extract callIdx)).2)).length = 0 →
      env.loadMore (attempts + 1) = true →
      scrapeGo env maxAds (fuel + 1) callIdx attempts stale ads seen
        = scrapeGo env maxAds fuel (callIdx + 2) (attempts + 1) 0
            (addCards maxAds ads seen (env.extract callIdx)).1
            (addCards maxAds ads seen (env.extract callIdx)).2) ∧
    (((env.extract (callIdx + 1)).filter
        (fun a => a.ad_id ∉ (addCards maxAds ads seen (env.extract callIdx)).2)).length = 0 →
      env.loadMore (attempts + 1) = false → stale + 1 < 5 →
      scrapeGo env maxAds (fuel + 1) callIdx attempts stale ads seen
        = scrapeGo env maxAds fuel (callIdx + 2) (attempts + 1) (stale + 1)
            (addCards maxAds ads seen (env.extract callIdx)).1
            (addCards maxAds ads seen (env.extract callIdx)).2) ∧
    (((env.extract (callIdx + 1)).filter
        (fun a => a.ad_id ∉ (addCards maxAds ads seen (env.extract callIdx)).2)).length = 0 →
      env.loadMore (attempts + 1) = false → stale + 1 = 5 →
      scrapeGo env maxAds (fuel + 1) callIdx attempts stale ads seen
        = ⟨(addCards maxAds ads seen (env.extract callIdx)).1, attempts + 1, 5⟩) ∧
    (((env.extract (callIdx + 1)).filter
        (fun a => a.ad_id ∉ (addCards maxAds ads seen (env.extract callIdx)).2)).length ≠ 0 →
      scrapeGo env maxAds (fuel + 1) callIdx attempts stale ads seen
        = scrapeGo env maxAds fuel (callIdx + 2) (attempts + 1) 0
            (addCards maxAds ads seen (env.extract callIdx)).1
            (addCards maxAds ads seen (env.extract callIdx)).2) := by
  have htop : ¬ maxAds ≤ ads.length := by omega
  have hfull : ¬ maxAds ≤ (addCards maxAds ads seen (env.extract callIdx)).1.length := by
    omega
  refine ⟨?_, ?_, ?_, ?_⟩
  · intro hnc hlm
    simp only [scrapeGo, if_neg htop, if_neg hfull, if_pos hnc, if_pos hlm]
  · intro hnc hlm hst
    simp only [scrapeGo, if_neg htop, if_neg hfull, if_pos hnc, hlm]
    rw [if_neg (by simp), if_neg (by omega)]
  · intro hnc hlm hst
    simp only [scrapeGo, if_neg htop, if_neg hfull, if_pos hnc, hlm]
    rw [if_neg (by simp), if_pos (by omega), hst]
  · intro hnc
    simp only [scrapeGo, if_neg htop, if_neg hfull, if_neg hnc]

/-- C6 amended witness: a concrete stale round in the all-stale environment,
with the loop continuing at counter 1. -/
theorem C6_amended_stale_five_witness :
    (((envC6.extract 1).filter
        (fun a => a.ad_id ∉ (addCards 10 [] [] (envC6.extract 0)).2)).length = 0 →
      envC6.loadMore 1 = true →
      scrapeGo envC6 10 50 0 0 0 [] []
        = scrapeGo envC6 10 49 2 1 0
            (addCards 10 [] [] (envC6.extract 0)).1
            (addCards 10 [] [] (envC6.extract 0)).2) ∧
    (((envC6.extract 1).filter
        (fun a => a.ad_id ∉ (addCards 10 [] [] (envC6.extract 0)).2)).length = 0 →
      envC6.loadMore 1 = false → 0 + 1 < 5 →
      scrapeGo envC6 10 50 0 0 0 [] []
        = scrapeGo envC6 10 49 2 1 (0 + 1)
            (addCards 10 [] [] (envC6.extract 0)).1
            (addCards 10 [] [] (envC6.extract 0)).2) ∧
    (((envC6.extract 1).filter
        (fun a => a.ad_id ∉ (addCards 10 [] [] (envC6.extract 0)).2)).length = 0 →
      envC6.loadMore 1 = false → 0 + 1 = 5 →
      scrapeGo envC6 10 50 0 0 0 [] []
        = ⟨(addCards 10 [] [] (envC6.extract 0)).1, 0 + 1, 5⟩) ∧
    (((envC6.extract 1).filter
        (fun a => a.ad_id ∉ (addCards 10 [] [] (envC6.extract 0)).2)).length ≠ 0 →
      scrapeGo envC6 10 50 0 0 0 [] []
        = scrapeGo envC6 10 49 2 1 0
            (addCards 10 [] [] (envC6.extract 0)).1
            (addCards 10 [] [] (envC6.extract 0)).2) :=
  C6_amended_stale_five envC6 10 49 0 0 0 [] [] (by decide) (by decide)

end MetaAdsAnalyzer
